import Mathlib

/-!
# Lowering of functions to LLVM IR with debug information

A shallow embedding of `src/codegen/ast-to-llvm-ir.cpp` (class
`ASTToLLVMIRVisitor` and `compile_llvm_ir`).

* The visitor object is the record `Engine`; every member function is a
  function from `Engine` to `Engine`.
* The LLVM objects the code manipulates (module, functions, basic blocks,
  instructions, the IR builder, the debug-info builder and its metadata) are
  plain data; the LLVM calls used by the source are small functions over that
  data, following the documented behaviour of the LLVM API.  An instruction
  records the `!dbg` location it was given, which for an instruction inserted
  through the IR builder is the location current at that moment.
* A `llvm::Function*` is the name under which the module holds the function
  (names are unique in a module), a `llvm::BasicBlock*` a function name and a
  position.  The `std::unique_ptr<llvm::DIBuilder>` is the builder itself:
  assigning a new builder drops the old one.
* A debug location is made by `DILocation::get`, which keeps 16 bits of
  column: a column of 65536 or more becomes 0.  The argument names of a
  function object are pairwise distinct (unnamed arguments apart), as LLVM
  keeps them by renaming (`a`, `b`, `a1`).
* Pointers the source dereferences unchecked (`expr->Proto`, `expr->Body`,
  `TheCU`, `DBuilder`) are values that are always there.
* Code of the repository that the file calls but that lives in the base class
  `ASTToObjectVisitor` or in other translation units (`getFunction`, the
  base-class `visit` overloads, `Initialize`, `MainLoop`, the constructor) is
  collected in the record `Collaborators` and taken as a parameter.
-/

namespace Arx

/-! ## String-keyed maps (`std::map<std::string, T>`) -/

/-- A `std::map<std::string, T>` as an association list. -/
abbrev StrMap (α : Type) := List (String × α)

namespace StrMap

/-- Lookup, `m.find(key)`: the value bound to `key`, if any. -/
def find {α : Type} : StrMap α → String → Option α
  | [], _ => none
  | (k, v) :: rest, key => if k = key then some v else find rest key

/-- Assignment through `operator[]`, `m[key] = val`: overwrite or insert. -/
def assign {α : Type} : StrMap α → String → α → StrMap α
  | [], key, val => [(key, val)]
  | (k, v) :: rest, key, val =>
    if k = key then (k, val) :: rest else (k, v) :: assign rest key val

/-- Removal of a key. -/
def remove {α : Type} : StrMap α → String → StrMap α
  | [], _ => []
  | (k, v) :: rest, key => if k = key then remove rest key else (k, v) :: remove rest key

/-- Apply `f` to the value bound to `key` (the object behind a pointer is
updated in place). -/
def update {α : Type} : StrMap α → String → (α → α) → StrMap α
  | [], _, _ => []
  | (k, v) :: rest, key, f =>
    if k = key then (k, f v) :: update rest key f else (k, v) :: update rest key f

end StrMap

/-! ## Debug metadata (`llvm::DI*`) -/

/-- Embeds `llvm::DIFile`. -/
structure DIFile where
  Filename : String
  Directory : String
deriving DecidableEq, Repr

/-- Embeds `llvm::DIBasicType`. -/
structure DIBasicType where
  Name : String
  SizeInBits : Nat
  Encoding : Nat
deriving DecidableEq, Repr

/-- Embeds `llvm::DICompileUnit`, with the arguments of `createCompileUnit`. -/
structure DICompileUnit where
  Lang : Nat
  File : DIFile
  Producer : String
  isOptimized : Bool
  Flags : String
  RV : Nat
deriving DecidableEq, Repr

/-- Embeds `llvm::DISubprogram`, with the arguments of `createFunction`.  `Ty` is the
subroutine type (result type first).  `node` tells apart the distinct metadata
nodes one builder creates. -/
structure DISubprogram where
  node : Nat
  Scope : DIFile
  Name : String
  LinkageName : String
  File : DIFile
  LineNo : Nat
  Ty : List DIBasicType
  ScopeLine : Nat
deriving DecidableEq, Repr

/-- Embeds `llvm::DILocalVariable`, with the arguments of `createParameterVariable`. -/
structure DILocalVariable where
  Scope : DISubprogram
  Name : String
  ArgNo : Nat
  File : DIFile
  LineNo : Nat
  Ty : DIBasicType
  AlwaysPreserve : Bool
deriving DecidableEq, Repr

/-- Embeds `llvm::DIScope*`: what the source stores in `LexicalBlocks` and passes to
`DILocation::get`. -/
inductive DIScope where
  | compileUnit (cu : DICompileUnit)
  | subprogram (sp : DISubprogram)
deriving DecidableEq, Repr

/-- Embeds `llvm::DILocation`. -/
structure DILocation where
  Line : Nat
  Column : Nat
  Scope : DIScope
deriving DecidableEq, Repr

/-- Embeds `llvm::DILocation::adjustColumn`: a location keeps 16 bits of column,
and a column that does not fit is replaced by 0 (no column). -/
def adjustColumn (Column : Nat) : Nat :=
  if Column < 65536 then Column else 0

/-- Embeds `llvm::DILocation::get(Context, Line, Column, Scope)`: the location
with the column adjusted. -/
def DILocation_get (Line Column : Nat) (Scope : DIScope) : DILocation :=
  ⟨Line, adjustColumn Column, Scope⟩

/-- Embeds `llvm::DebugLoc`: a possibly null `DILocation`.  `none` is the null
location `llvm::DebugLoc()`. -/
abbrev DebugLoc := Option DILocation

/-- Embeds `llvm::DIBuilder`: the records that stay with the builder until
`finalize`, and how often `finalize` ran. -/
structure DIBuilder where
  compileUnits : List DICompileUnit := []
  subprograms : List DISubprogram := []
  localVariables : List DILocalVariable := []
  finalized : Nat := 0
deriving DecidableEq, Repr

/-! ## IR objects (`llvm::Value`, `llvm::Function`, `llvm::Module`) -/

/-- Embeds `llvm::Value*` as far as the source handles values: an argument of a
function, a stack slot (the result of an `alloca`), or a value produced by the
lowering of an expression. -/
inductive Value where
  | argument (fn : String) (argNo : Nat)
  | alloca (slot : Nat)
  | lowered (text : String)
deriving DecidableEq, Repr

/-- The instructions the source emits itself, and `lowered` for those the
lowering of expressions emits. -/
inductive Opcode where
  | alloca (result : Value) (name : String)
  | dbgDeclare (storage : Value) (var : DILocalVariable)
  | store (val : Value) (ptr : Value)
  | ret (val : Value)
  | lowered (text : String) (isTerminator : Bool)
deriving DecidableEq, Repr

/-- An instruction with its `!dbg` attachment. -/
structure Instruction where
  op : Opcode
  dbg : DebugLoc
deriving DecidableEq, Repr

/-- Embeds `llvm::BasicBlock`. -/
structure BasicBlock where
  Name : String
  insts : List Instruction := []
deriving DecidableEq, Repr

/-- The names of the arguments of a function are pairwise distinct, unnamed
arguments (empty name) apart: a value whose name is taken in the symbol table
of its function is renamed when the name is set. -/
def distinctNames : List String → Bool
  | [] => true
  | n :: rest => (decide (n = "") || !decide (n ∈ rest)) && distinctNames rest

/-- Embeds `llvm::Function`: argument names (pairwise distinct, as LLVM keeps them),
basic blocks, attached subprogram.  Its name is the key under which the module
holds it. -/
structure Function where
  args : List String
  args_distinct : distinctNames args = true
  blocks : List BasicBlock := []
  Subprogram : Option DISubprogram := none
deriving DecidableEq, Repr

/-- Embeds `llvm::Module`: the functions by name (names are unique in a module), the
data layout and the module flags. -/
structure Module where
  functions : StrMap Function := []
  DataLayout : Option String := none
  flags : List (String × Nat) := []
deriving DecidableEq, Repr

/-- Embeds `llvm::BasicBlock*`: the block `idx` of function `fn`. -/
structure BlockRef where
  fn : String
  idx : Nat
deriving DecidableEq, Repr

/-- Embeds `llvm::IRBuilder<>`: the insertion point (always the end of a block here)
and the current debug location. -/
structure IRBuilder where
  InsertBlock : Option BlockRef := none
  CurrentDebugLocation : DebugLoc := none
deriving DecidableEq, Repr

/-! ## The AST -/

/-- The expression variants of `ExprAST`. -/
inductive NodeKind where
  | Number | Variable | Unary | Binary | Call | If | For | Var
deriving DecidableEq, Repr

/-- Modelled from the spec: the class `ExprAST` and its subclasses are declared
in `parser.h`, which is not among the sources.  A node exposes its variant tag,
its children and a source line and column (spec, External Interfaces); `text`
stands for the literal, name or operator it carries. -/
inductive ExprAST where
  | node (kind : NodeKind) (line col : Nat) (text : String) (children : List ExprAST)

/-- Embeds `ExprAST::getLine`. -/
def ExprAST.getLine : ExprAST → Nat
  | .node _ line _ _ _ => line

/-- Embeds `ExprAST::getCol`. -/
def ExprAST.getCol : ExprAST → Nat
  | .node _ _ col _ _ => col

/-- The variant tag on which `accept` dispatches. -/
def ExprAST.kind : ExprAST → NodeKind
  | .node k _ _ _ _ => k

/-- Modelled from the spec: the class `PrototypeAST` is declared in `parser.h`,
which is not among the sources.  The source reads `getName()` and `getLine()`;
`Args` are the parameter names a prototype carries ("parameter count/names"). -/
structure PrototypeAST where
  Name : String
  Args : List String
  Line : Nat
deriving DecidableEq, Repr

/-- Modelled from the spec: the class `FunctionAST` is declared in `parser.h`,
which is not among the sources.  The source reads `Proto` and `Body` and
dereferences both unchecked. -/
structure FunctionAST where
  Proto : PrototypeAST
  Body : ExprAST

/-- Modelled from the spec: the class `TreeAST` is declared in `parser.h`, which
is not among the sources; it holds the top-level nodes handed to `MainLoop`. -/
structure TreeAST where
  nodes : List FunctionAST

/-! ## The visitor state and its collaborators -/

/-- The state of an `ASTToLLVMIRVisitor` together with the process-wide
`FunctionProtos`.  `TheCU` is dereferenced unchecked by every visit, so a state
always carries one.  `nextSlot` is the supply of fresh stack-slot identities
(pointer identity of `llvm::AllocaInst`). -/
structure Engine where
  FunctionProtos : StrMap PrototypeAST := []
  NamedValues : StrMap Value := []
  TheModule : Module := {}
  Builder : IRBuilder := {}
  DBuilder : DIBuilder := {}
  TheCU : DICompileUnit
  DblTy : Option DIBasicType := none
  LexicalBlocks : List DIScope := []
  result_val : Option Value := none
  result_func : Option String := none
  TheJIT : Option String := none
  nextSlot : Nat := 0
  errs : List Module := []
deriving DecidableEq, Repr

/-- The parts of the repository and of its environment that
`ast-to-llvm-ir.cpp` calls and that are not among the sources. -/
structure Collaborators where
  /-- Embeds `ASTToObjectVisitor::getFunction(Name)`: leaves the function found for
  `Name` (or null) in `result_func`. -/
  getFunction : String → Engine → Engine
  /-- Embeds `ASTToObjectVisitor::visit(expr)` for the eight expression variants. -/
  visitExpr : ExprAST → Engine → Engine
  /-- Embeds `ASTToObjectVisitor::visit(PrototypeAST*)`. -/
  visitPrototype : PrototypeAST → Engine → Engine
  /-- Embeds `llvm::verifyFunction`: `true` when the function is broken. -/
  verifyFunction : Function → Bool
  /-- Embeds `ASTToObjectVisitor::Initialize()`. -/
  Initialize : Engine → Engine
  /-- Embeds `llvm::orc::ArxJIT::Create()`: the data layout of the JIT, or an error
  (on which `ExitOnErr` ends the process). -/
  ArxJIT_Create : Option String
  /-- Embeds `ASTToObjectVisitor::MainLoop(ast)`. -/
  MainLoop : TreeAST → Engine → Engine
  /-- Embeds `llvm::Triple(llvm::sys::getProcessTriple()).isOSDarwin()`. -/
  isOSDarwin : Bool
  /-- Embeds `new ASTToLLVMIRVisitor()`: the state of a newly constructed visitor (the
  constructor is declared in the header). -/
  new_ASTToLLVMIRVisitor : Engine

/-! ## `emitLocation` and the visits of expressions and prototypes -/

/-- Embeds `Builder->SetCurrentDebugLocation(L)`. -/
def Engine.SetCurrentDebugLocation (st : Engine) (L : DebugLoc) : Engine :=
  { st with Builder := { st.Builder with CurrentDebugLocation := L } }

/-- Embeds `ASTToLLVMIRVisitor::emitLocation(ExprAST* AST)`. -/
def emitLocation (AST : Option ExprAST) (st : Engine) : Engine :=
  match AST with
  | none => st.SetCurrentDebugLocation none
  | some AST =>
    let Scope : DIScope :=
      match st.LexicalBlocks.getLast? with
      | none => DIScope.compileUnit st.TheCU
      | some back => back
    st.SetCurrentDebugLocation (some (DILocation_get AST.getLine AST.getCol Scope))

/-- Embeds `ASTToLLVMIRVisitor::visit(NumberExprAST*)`. -/
def visit_NumberExprAST (env : Collaborators) (expr : ExprAST) (st : Engine) : Engine :=
  env.visitExpr expr (emitLocation (some expr) st)

/-- Embeds `ASTToLLVMIRVisitor::visit(VariableExprAST*)`. -/
def visit_VariableExprAST (env : Collaborators) (expr : ExprAST) (st : Engine) : Engine :=
  env.visitExpr expr (emitLocation (some expr) st)

/-- Embeds `ASTToLLVMIRVisitor::visit(UnaryExprAST*)`. -/
def visit_UnaryExprAST (env : Collaborators) (expr : ExprAST) (st : Engine) : Engine :=
  env.visitExpr expr (emitLocation (some expr) st)

/-- Embeds `ASTToLLVMIRVisitor::visit(BinaryExprAST*)`. -/
def visit_BinaryExprAST (env : Collaborators) (expr : ExprAST) (st : Engine) : Engine :=
  env.visitExpr expr (emitLocation (some expr) st)

/-- Embeds `ASTToLLVMIRVisitor::visit(CallExprAST*)`. -/
def visit_CallExprAST (env : Collaborators) (expr : ExprAST) (st : Engine) : Engine :=
  env.visitExpr expr (emitLocation (some expr) st)

/-- Embeds `ASTToLLVMIRVisitor::visit(IfExprAST*)`. -/
def visit_IfExprAST (env : Collaborators) (expr : ExprAST) (st : Engine) : Engine :=
  env.visitExpr expr (emitLocation (some expr) st)

/-- Embeds `ASTToLLVMIRVisitor::visit(ForExprAST*)`. -/
def visit_ForExprAST (env : Collaborators) (expr : ExprAST) (st : Engine) : Engine :=
  env.visitExpr expr (emitLocation (some expr) st)

/-- Embeds `ASTToLLVMIRVisitor::visit(VarExprAST*)`. -/
def visit_VarExprAST (env : Collaborators) (expr : ExprAST) (st : Engine) : Engine :=
  env.visitExpr expr (emitLocation (some expr) st)

/-- Embeds `ASTToLLVMIRVisitor::visit(PrototypeAST*)`: no call of `emitLocation`. -/
def visit_PrototypeAST (env : Collaborators) (expr : PrototypeAST) (st : Engine) : Engine :=
  env.visitPrototype expr st

/-- Embeds `expr->accept(this)` on an expression: the double dispatch of the AST
selects the `visit` overload of the node's variant. -/
def accept (env : Collaborators) (expr : ExprAST) (st : Engine) : Engine :=
  match expr.kind with
  | .Number => visit_NumberExprAST env expr st
  | .Variable => visit_VariableExprAST env expr st
  | .Unary => visit_UnaryExprAST env expr st
  | .Binary => visit_BinaryExprAST env expr st
  | .Call => visit_CallExprAST env expr st
  | .If => visit_IfExprAST env expr st
  | .For => visit_ForExprAST env expr st
  | .Var => visit_VarExprAST env expr st

/-! ## The LLVM calls of `visit(FunctionAST*)` -/

/-- Apply `g` to the element at position `idx`, if there is one. -/
def modifyAt {α : Type} (g : α → α) : List α → Nat → List α
  | [], _ => []
  | a :: l, 0 => g a :: l
  | a :: l, n + 1 => a :: modifyAt g l n

/-- Embeds `Module::getFunction(Name)`. -/
def Module.getFunction (M : Module) (Name : String) : Option Function :=
  M.functions.find Name

/-- Update the function `Name` of the module in place. -/
def Module.updateFunction (M : Module) (Name : String) (g : Function → Function) : Module :=
  { M with functions := M.functions.update Name g }

/-- Update the block `idx` of a function in place. -/
def Function.updateBlock (F : Function) (idx : Nat) (g : BasicBlock → BasicBlock) : Function :=
  { F with blocks := modifyAt g F.blocks idx }

/-- The instructions of the block `bb`, in order (none when there is no such
block). -/
def Module.instsOf (M : Module) (bb : BlockRef) : List Instruction :=
  match M.getFunction bb.fn with
  | none => []
  | some F =>
    match F.blocks[bb.idx]? with
    | none => []
    | some b => b.insts

/-- Replace the instruction list `l` of the block `bb` by `h l`. -/
def Module.updateInsts (M : Module) (bb : BlockRef) (h : List Instruction → List Instruction) :
    Module :=
  M.updateFunction bb.fn (fun F => F.updateBlock bb.idx (fun b => { b with insts := h b.insts }))

/-- Insert an instruction at the end of the block `bb`. -/
def Module.appendInst (M : Module) (bb : BlockRef) (i : Instruction) : Module :=
  M.updateInsts bb (fun l => l ++ [i])

/-- Insert an instruction at the beginning of the block `bb`. -/
def Module.prependInst (M : Module) (bb : BlockRef) (i : Instruction) : Module :=
  M.updateInsts bb (fun l => i :: l)

/-- Embeds `llvm::BasicBlock::Create(Context, Name, Parent)`: a new empty block at the
end of `Parent`. -/
def BasicBlock_Create (Name : String) (Parent : String) (st : Engine) : BlockRef × Engine :=
  let idx := match st.TheModule.getFunction Parent with
    | none => 0
    | some F => F.blocks.length
  (⟨Parent, idx⟩,
   { st with TheModule :=
      (st.TheModule.updateFunction Parent
        (fun F => { F with blocks := F.blocks ++ [{ Name := Name }] })) })

/-- Embeds `Builder->SetInsertPoint(BB)`: insert at the end of `BB`. -/
def Engine.SetInsertPoint (st : Engine) (BB : BlockRef) : Engine :=
  { st with Builder := { st.Builder with InsertBlock := some BB } }

/-- The insertion of `IRBuilder`: the instruction goes to the end of the insert
block and carries the current debug location. -/
def Engine.Insert (st : Engine) (op : Opcode) : Engine :=
  match st.Builder.InsertBlock with
  | none => st
  | some bb =>
    { st with TheModule := st.TheModule.appendInst bb ⟨op, st.Builder.CurrentDebugLocation⟩ }

/-- Embeds `Builder->CreateStore(Val, Ptr)`. -/
def CreateStore (Val Ptr : Value) (st : Engine) : Engine :=
  st.Insert (.store Val Ptr)

/-- Embeds `Builder->CreateRet(V)`. -/
def CreateRet (V : Value) (st : Engine) : Engine :=
  st.Insert (.ret V)

/-- Embeds `TheFunction->arg_size()`. -/
def arg_size (TheFunction : String) (st : Engine) : Nat :=
  match st.TheModule.getFunction TheFunction with
  | none => 0
  | some F => F.args.length

/-- Embeds `TheFunction->args()`: the arguments by name, in order; the names are those
the function object carries, which are pairwise distinct. -/
def argsOf (TheFunction : String) (st : Engine) : List String :=
  match st.TheModule.getFunction TheFunction with
  | none => []
  | some F => F.args

/-- Embeds `TheFunction->setSubprogram(SP)`. -/
def setSubprogram (TheFunction : String) (SP : DISubprogram) (st : Engine) : Engine :=
  { st with TheModule :=
      (st.TheModule.updateFunction TheFunction (fun F => { F with Subprogram := some SP })) }

/-- Embeds `TheFunction->eraseFromParent()`: the function, with its blocks and
instructions, leaves the module. -/
def eraseFromParent (TheFunction : String) (st : Engine) : Engine :=
  { st with TheModule := { st.TheModule with functions := st.TheModule.functions.remove TheFunction } }

/-- Embeds `DBuilder->createFile(Filename, Directory)`. -/
def createFile (Filename Directory : String) : DIFile :=
  ⟨Filename, Directory⟩

/-- Embeds `DBuilder->createFunction(...)` with `FlagPrototyped` and `SPFlagDefinition`:
a new distinct subprogram, kept by the builder. -/
def createFunction (Scope : DIFile) (Name LinkageName : String) (File : DIFile) (LineNo : Nat)
    (Ty : List DIBasicType) (ScopeLine : Nat) (st : Engine) : DISubprogram × Engine :=
  let SP : DISubprogram :=
    ⟨st.DBuilder.subprograms.length, Scope, Name, LinkageName, File, LineNo, Ty, ScopeLine⟩
  (SP, { st with DBuilder := { st.DBuilder with subprograms := st.DBuilder.subprograms ++ [SP] } })

/-- Embeds `DBuilder->createParameterVariable(...)`: a new variable record, kept by the
builder. -/
def createParameterVariable (Scope : DISubprogram) (Name : String) (ArgNo : Nat) (File : DIFile)
    (LineNo : Nat) (Ty : DIBasicType) (AlwaysPreserve : Bool) (st : Engine) :
    DILocalVariable × Engine :=
  let D : DILocalVariable := ⟨Scope, Name, ArgNo, File, LineNo, Ty, AlwaysPreserve⟩
  (D, { st with DBuilder := { st.DBuilder with localVariables := st.DBuilder.localVariables ++ [D] } })

/-- Embeds `DBuilder->insertDeclare(Storage, VarInfo, Expr, DL, InsertAtEnd)`: a
declare for `Storage` at the end of the block, carrying the location `DL`. -/
def insertDeclare (Storage : Value) (VarInfo : DILocalVariable) (DL : DILocation)
    (InsertAtEnd : Option BlockRef) (st : Engine) : Engine :=
  match InsertAtEnd with
  | none => st
  | some bb => { st with TheModule := st.TheModule.appendInst bb ⟨.dbgDeclare Storage VarInfo, some DL⟩ }

/-- Embeds `ASTToLLVMIRVisitor::getDoubleTy()`. -/
def getDoubleTy (st : Engine) : DIBasicType × Engine :=
  match st.DblTy with
  | some ty => (ty, st)
  | none =>
    let ty : DIBasicType := ⟨"double", 64, 4⟩
    (ty, { st with DblTy := some ty })

/-- Embeds `ASTToLLVMIRVisitor::CreateFunctionType(NumArgs)`: the result type
followed by one type for each argument. -/
def CreateFunctionType (NumArgs : Nat) (st : Engine) : List DIBasicType × Engine :=
  let (DblTy, st) := getDoubleTy st
  (DblTy :: List.replicate NumArgs DblTy, st)

/-- Modelled from the spec: `CreateEntryBlockAlloca(TheFunction, VarName)` is
defined with the base class, which is not among the sources.  The spec has it
"allocate a stack slot", "an addressable, mutable slot in the current
function's stack frame": a fresh slot whose `alloca` is placed at the head of
the entry block of the function, with no debug location. -/
def CreateEntryBlockAlloca (TheFunction : String) (VarName : String) (st : Engine) :
    Value × Engine :=
  let Alloca := Value.alloca st.nextSlot
  (Alloca,
   { st with
      nextSlot := st.nextSlot + 1
      TheModule := st.TheModule.prependInst ⟨TheFunction, 0⟩ ⟨.alloca Alloca VarName, none⟩ })

/-! ## `visit(FunctionAST*)` -/

/-- Lines 202-203: `FunctionProtos[expr->Proto->getName()] = std::move(expr->Proto)`
and `this->getFunction(P.getName())`.  Afterwards `result_func` is what the
source reads into `TheFunction`. -/
def resolveFunction (env : Collaborators) (expr : FunctionAST) (st : Engine) : Engine :=
  let P := expr.Proto
  let st := { st with FunctionProtos := st.FunctionProtos.assign expr.Proto.Name expr.Proto }
  env.getFunction P.Name st

/-- Lines 213-243: the entry block, the subprogram of the function, the push
of its scope and the unsetting of the location. -/
def openFunction (P : PrototypeAST) (TheFunction : String) (st : Engine) :
    (DIFile × DISubprogram) × Engine :=
  let (BB, st) := BasicBlock_Create "entry" TheFunction st
  let st := st.SetInsertPoint BB
  let Unit := createFile st.TheCU.File.Filename st.TheCU.File.Directory
  let FContext := Unit
  let LineNo := P.Line
  let ScopeLine := LineNo
  let (FnTy, st) := CreateFunctionType (arg_size TheFunction st) st
  let (SP, st) := createFunction FContext P.Name "" Unit LineNo FnTy ScopeLine st
  let st := setSubprogram TheFunction SP st
  let st := { st with LexicalBlocks := st.LexicalBlocks ++ [DIScope.subprogram SP] }
  let st := emitLocation none st
  ((Unit, SP), st)

/-- One turn of the loop of lines 250-274, for the argument `Arg` at position
`ArgIdx` (counted from 0; the source increments `ArgIdx` before it numbers the
debug variable). -/
def bindArgument (TheFunction : String) (SP : DISubprogram) (Unit : DIFile) (LineNo : Nat)
    (Arg : String) (ArgIdx : Nat) (st : Engine) : Engine :=
  let (Alloca, st) := CreateEntryBlockAlloca TheFunction Arg st
  let (DblTy, st) := getDoubleTy st
  let (D, st) := createParameterVariable SP Arg (ArgIdx + 1) Unit LineNo DblTy true st
  let st := insertDeclare Alloca D (DILocation_get LineNo 0 (DIScope.subprogram SP))
    st.Builder.InsertBlock st
  let st := CreateStore (Value.argument TheFunction ArgIdx) Alloca st
  { st with NamedValues := st.NamedValues.assign Arg Alloca }

/-- The loop of lines 250-274 over the remaining arguments. -/
def bindArguments (TheFunction : String) (SP : DISubprogram) (Unit : DIFile) (LineNo : Nat) :
    List String → Nat → Engine → Engine
  | [], _, st => st
  | Arg :: rest, ArgIdx, st =>
    bindArguments TheFunction SP Unit LineNo rest (ArgIdx + 1)
      (bindArgument TheFunction SP Unit LineNo Arg ArgIdx st)

/-- Lines 213-274: everything `visit(FunctionAST*)` does for a resolved function
before it sets the location of the body; the prologue. -/
def prologue (P : PrototypeAST) (TheFunction : String) (st : Engine) : Engine :=
  let ((Unit, SP), st) := openFunction P TheFunction st
  let st := { st with NamedValues := [] }
  bindArguments TheFunction SP Unit P.Line (argsOf TheFunction st) 0 st

/-- Line 276: the state in which the lowering of the body starts. -/
def bodyStart (expr : FunctionAST) (TheFunction : String) (st : Engine) : Engine :=
  emitLocation (some expr.Body) (prologue expr.Proto TheFunction st)

/-- Line 278: the state the lowering of the body leaves. -/
def bodyEnd (env : Collaborators) (expr : FunctionAST) (TheFunction : String) (st : Engine) :
    Engine :=
  accept env expr.Body (bodyStart expr TheFunction st)

/-- Lines 279-302: the return and the verification, or the removal of the
function; the verdict of `verifyFunction` is not used. -/
def finishFunction (env : Collaborators) (TheFunction : String) (st : Engine) : Engine :=
  match st.result_val with
  | some RetVal =>
    let st := CreateRet RetVal st
    let st := { st with LexicalBlocks := st.LexicalBlocks.dropLast }
    let _verdict := (st.TheModule.getFunction TheFunction).map env.verifyFunction
    { st with result_func := some TheFunction }
  | none =>
    let st := eraseFromParent TheFunction st
    let st := { st with result_func := none }
    { st with LexicalBlocks := st.LexicalBlocks.dropLast }

/-- Embeds `ASTToLLVMIRVisitor::visit(FunctionAST*)`, lines 200-303: the prototype is
registered and the function resolved; without a function object the visit
ends (lines 206-209); otherwise the prologue is emitted, the body lowered and
the function finished. -/
def visit_FunctionAST (env : Collaborators) (expr : FunctionAST) (st : Engine) : Engine :=
  let st := resolveFunction env expr st
  match st.result_func with
  | none => { st with result_func := none }
  | some TheFunction => finishFunction env TheFunction (bodyEnd env expr TheFunction st)

/-! ## `Initialize` and `compile_llvm_ir` -/

/-- Embeds `DBuilder->createCompileUnit(Lang, File, Producer, isOptimized, Flags, RV)`:
a new compile-unit record on the current debug-info builder. -/
def createCompileUnit (Lang : Nat) (File : DIFile) (Producer : String) (isOptimized : Bool)
    (Flags : String) (RV : Nat) (st : Engine) : DICompileUnit × Engine :=
  let CU : DICompileUnit := ⟨Lang, File, Producer, isOptimized, Flags, RV⟩
  (CU, { st with DBuilder := { st.DBuilder with compileUnits := st.DBuilder.compileUnits ++ [CU] } })

/-- Embeds `TheModule->addModuleFlag(llvm::Module::Warning, Key, Val)`. -/
def addModuleFlag (Key : String) (Val : Nat) (st : Engine) : Engine :=
  { st with TheModule := { st.TheModule with flags := st.TheModule.flags ++ [(Key, Val)] } }

/-- Embeds `DBuilder->finalize()`. -/
def finalize (st : Engine) : Engine :=
  { st with DBuilder := { st.DBuilder with finalized := st.DBuilder.finalized + 1 } }

/-- Embeds `TheModule->print(llvm::errs(), nullptr)`. -/
def printModule (st : Engine) : Engine :=
  { st with errs := st.errs ++ [st.TheModule] }

/-- The constant `llvm::dwarf::DW_LANG_C`. -/
def DW_LANG_C : Nat := 2

/-- The constant `llvm::DEBUG_METADATA_VERSION`. -/
def DEBUG_METADATA_VERSION : Nat := 3

/-- Embeds `ASTToLLVMIRVisitor::Initialize()`; `none` when the JIT cannot be created
and `ExitOnErr` ends the process. -/
def Initialize (env : Collaborators) (st : Engine) : Option Engine :=
  let st := env.Initialize st
  match env.ArxJIT_Create with
  | none => none
  | some DataLayout =>
    let st := { st with TheJIT := some DataLayout }
    let st := { st with TheModule := { st.TheModule with DataLayout := some DataLayout } }
    some { st with DBuilder := {} }

/-- Lines 325-360 of `compile_llvm_ir`: the visitor is constructed and
initialized, a first compile unit is created on the debug-info builder that
`Initialize` made, and the module flags are added.  `Lexer::getNextToken()`,
the three `llvm::InitializeNativeTarget*` calls and the log lines do not touch
the visitor. -/
def sessionPrelude (env : Collaborators) : Option Engine :=
  let codegen := env.new_ASTToLLVMIRVisitor
  match Initialize env codegen with
  | none => none
  | some codegen =>
    let (CU, codegen) :=
      createCompileUnit DW_LANG_C (createFile "fib.ks" ".") "Arx Compiler" false "" 0 codegen
    let codegen := { codegen with TheCU := CU }
    let codegen := addModuleFlag "Debug Info Version" DEBUG_METADATA_VERSION codegen
    some (if env.isOSDarwin then addModuleFlag "Dwarf Version" 2 codegen else codegen)

/-- Lines 325-374 of `compile_llvm_ir`: everything before the main loop.  After
the prelude a new debug-info builder replaces the first one (line 363) and
the compile unit is created again, on the new builder (lines 368-374). -/
def openSession (env : Collaborators) : Option Engine :=
  match sessionPrelude env with
  | none => none
  | some codegen =>
    let codegen := { codegen with DBuilder := {} }
    let (CU, codegen) :=
      createCompileUnit DW_LANG_C (createFile "fib.arxks" ".") "Arx Compiler" false "" 0 codegen
    some { codegen with TheCU := CU }

/-- Lines 380-383 of `compile_llvm_ir`: the debug info is finalized and the
module printed. -/
def closeSession (codegen : Engine) : Engine :=
  printModule (finalize codegen)

/-- Embeds `compile_llvm_ir(TreeAST* ast)`; `none` when the process ends in
`Initialize`. -/
def compile_llvm_ir (env : Collaborators) (ast : TreeAST) : Option Engine :=
  match openSession env with
  | none => none
  | some codegen => some (closeSession (env.MainLoop ast codegen))

/-! ## A reference instance of the collaborators

The theorems below hold for every instance of `Collaborators` (under the
hypotheses they state).  The instance of this section is used where a concrete
instance is needed: it resolves names and lowers number and variable bodies as
the spec describes, and its verifier applies three rules of the LLVM
verifier. -/

/-- Embeds `Value::setName` in the symbol table of a function, where `used` are the
names taken and `LastUnique` the counter of the table: an empty name leaves
the value unnamed, a free name is taken as it is, and a taken name gets the
next counter values appended until the result is free.  (Among
`used.length + 1` candidates one is free, so the last case is never
reached.) -/
def uniqueName (used : List String) (LastUnique : Nat) (Name : String) : String × Nat :=
  if Name = "" then ("", LastUnique)
  else if Name ∉ used then (Name, LastUnique)
  else
    match (List.range (used.length + 1)).find?
        (fun i => !decide (Name ++ toString (LastUnique + 1 + i) ∈ used)) with
    | some i => (Name ++ toString (LastUnique + 1 + i), LastUnique + 1 + i)
    | none => ("", LastUnique)

/-- The names the arguments of a new function get when they are set one after
the other to the parameter names of a prototype: `a b a` gives `a b a1`. -/
def setArgNames : List String → List String → Nat → List String
  | [], _, _ => []
  | Name :: rest, used, LastUnique =>
    (uniqueName used LastUnique Name).1 ::
      setArgNames rest ((uniqueName used LastUnique Name).1 :: used)
        (uniqueName used LastUnique Name).2

/-- A new function declaration whose arguments are named after the parameters
of a prototype.  (The names `setArgNames` gives are always distinct, see
`setArgNames_distinct`, so the second case is never reached.) -/
def declareFunction (Args : List String) : Function :=
  if h : distinctNames (setArgNames Args [] 0) = true then
    { args := setArgNames Args [] 0, args_distinct := h }
  else { args := [], args_distinct := rfl }

/-- Modelled from the spec: `ASTToObjectVisitor::visit(PrototypeAST*)` is not
among the sources.  "Prototype: register parameter count/names only; does not
itself emit executable code": a declaration whose arguments are named after
the parameters of the prototype enters the module and is left in
`result_func`. -/
def refVisitPrototype (P : PrototypeAST) (st : Engine) : Engine :=
  { st with
    TheModule :=
      { st.TheModule with functions := st.TheModule.functions.assign P.Name (declareFunction P.Args) }
    result_func := some P.Name }

/-- Modelled from the spec: `ASTToObjectVisitor::getFunction` is not among the
sources.  "Resolve by name (declared function in the current module, falling
back to the Prototype Registry)". -/
def refGetFunction (Name : String) (st : Engine) : Engine :=
  match st.TheModule.getFunction Name with
  | some _ => { st with result_func := some Name }
  | none =>
    match st.FunctionProtos.find Name with
    | some P => refVisitPrototype P st
    | none => { st with result_func := none }

/-- Modelled from the spec: the base-class lowering of expressions is not among
the sources.  "Number: a constant value.  Variable: a load from the Symbol
Table entry for that name; unresolved name: failure."  The other variants are
left unlowered by this instance (null result). -/
def refVisitExpr (expr : ExprAST) (st : Engine) : Engine :=
  match expr with
  | .node .Number _ _ text _ => { st with result_val := some (Value.lowered text) }
  | .node .Variable _ _ name _ =>
    match st.NamedValues.find name with
    | some _ =>
      { st.Insert (.lowered ("load " ++ name) false) with result_val := some (Value.lowered name) }
    | none => { st with result_val := none }
  | _ => { st with result_val := none }

/-- A basic block is well terminated when its last instruction is a terminator
and no earlier one is. -/
def BasicBlock.wellTerminated (b : BasicBlock) : Bool :=
  let isTerm : Instruction → Bool := fun i =>
    match i.op with
    | .ret _ => true
    | .lowered _ t => t
    | _ => false
  match b.insts.reverse with
  | [] => false
  | last :: before => isTerm last && before.all (fun i => !isTerm i)

/-- Three rules of the LLVM verifier (`true` when the function is broken): a
block without terminator, a terminator in the middle of a block, and, in a
function that has a subprogram, a `!dbg` attachment whose scope is not that
subprogram. -/
def refVerifyFunction (F : Function) : Bool :=
  F.blocks.any (fun b => !b.wellTerminated) ||
  (match F.Subprogram with
   | none => false
   | some SP =>
     F.blocks.any (fun b => b.insts.any (fun i =>
       match i.dbg with
       | none => false
       | some loc => decide (loc.Scope ≠ DIScope.subprogram SP))))

/-- The reference instance, with a main loop that lowers nothing. -/
def refBase : Collaborators where
  getFunction := refGetFunction
  visitExpr := refVisitExpr
  visitPrototype := refVisitPrototype
  verifyFunction := refVerifyFunction
  Initialize := fun st => { st with TheModule := {}, Builder := {} }
  ArxJIT_Create := some "e-m:e-i64:64-f80:128-n8:16:32:64-S128"
  MainLoop := fun _ st => st
  isOSDarwin := false
  new_ASTToLLVMIRVisitor := { TheCU := ⟨0, ⟨"", ""⟩, "", false, "", 0⟩ }

/-- Modelled from the spec: `ASTToObjectVisitor::MainLoop` is not among the
sources.  "The session may continue lowering subsequent top-level
functions": the functions of the tree are lowered one after the other. -/
def refMainLoop (ast : TreeAST) (st : Engine) : Engine :=
  ast.nodes.foldl (fun s f => visit_FunctionAST refBase f s) st

/-- The reference instance with that main loop. -/
def refEnv : Collaborators :=
  { refBase with MainLoop := refMainLoop }

/-! ## Example inputs -/

/-- A compile unit for examples. -/
def exampleCU : DICompileUnit :=
  ⟨2, ⟨"fib.arxks", "."⟩, "Arx Compiler", false, "", 0⟩

/-- A fresh visitor state for examples. -/
def exampleEngine : Engine :=
  { TheCU := exampleCU }

/-- A state for examples: inside a function whose subprogram scope is on the
stack, with the null location current. -/
def exampleInside : Engine :=
  { exampleEngine with
    LexicalBlocks := [DIScope.subprogram ⟨0, ⟨"fib.arxks", "."⟩, "foo", "", ⟨"fib.arxks", "."⟩, 3, [], 3⟩] }

/-- Example input: `def foo(a b a) a`, a function whose body reads a parameter. -/
def exampleFoo : FunctionAST :=
  ⟨⟨"foo", ["a", "b", "a"], 3⟩, .node .Variable 4 7 "a" []⟩

/-- Example input: `def bar(a) y`, a function whose body reads an undeclared
variable and so lowers to null. -/
def exampleBar : FunctionAST :=
  ⟨⟨"bar", ["a"], 5⟩, .node .Variable 6 2 "y" []⟩

/-- Example input: `def one() 1`. -/
def exampleOne : FunctionAST :=
  ⟨⟨"one", [], 1⟩, .node .Number 1 9 "1" []⟩

/-- Example input: `def foo(a) a`. -/
def exampleFooA : FunctionAST :=
  ⟨⟨"foo", ["a"], 1⟩, .node .Variable 1 12 "a" []⟩

/-- Example input: `def foo(x) x`, a second definition of `foo` whose parameter
has another name. -/
def exampleFooX : FunctionAST :=
  ⟨⟨"foo", ["x"], 2⟩, .node .Variable 2 12 "x" []⟩

/-- Example input: `def far() 1` with the body at column 65536 of line 2. -/
def exampleFar : FunctionAST :=
  ⟨⟨"far", [], 2⟩, .node .Number 2 65536 "1" []⟩

/-- Example input: the two functions `foo` and `bar`. -/
def exampleTree : TreeAST :=
  ⟨[exampleFoo, exampleBar]⟩

/-! ## Predicates used in the statements -/

/-- The module has the block `bb`. -/
def Module.HasBlock (M : Module) (bb : BlockRef) : Prop :=
  ∃ G, M.getFunction bb.fn = some G ∧ bb.idx < G.blocks.length

/-- Whether an instruction is a store. -/
def Instruction.isStore (x : Instruction) : Bool :=
  match x.op with
  | .store _ _ => true
  | _ => false

/-! ## Maps: lookup after assignment, removal and update -/

theorem StrMap.find_assign_self {α : Type} (m : StrMap α) (k : String) (v : α) :
    (m.assign k v).find k = some v := by
  induction m with
  | nil => simp [StrMap.assign, StrMap.find]
  | cons kv rest ih =>
    obtain ⟨k', v'⟩ := kv
    by_cases h : k' = k
    · simp [StrMap.assign, StrMap.find, h]
    · simp [StrMap.assign, StrMap.find, h, ih]

theorem StrMap.find_assign_ne {α : Type} (m : StrMap α) (k n : String) (v : α) (h : n ≠ k) :
    (m.assign k v).find n = m.find n := by
  induction m with
  | nil => simp [StrMap.assign, StrMap.find, Ne.symm h]
  | cons kv rest ih =>
    obtain ⟨k', v'⟩ := kv
    by_cases hk : k' = k
    · subst hk
      simp [StrMap.assign, StrMap.find, Ne.symm h]
    · by_cases hn : k' = n
      · subst hn
        simp [StrMap.assign, StrMap.find, hk]
      · simp [StrMap.assign, StrMap.find, hk, hn, ih]

theorem StrMap.find_remove_self {α : Type} (m : StrMap α) (k : String) :
    (m.remove k).find k = none := by
  induction m with
  | nil => simp [StrMap.remove, StrMap.find]
  | cons kv rest ih =>
    obtain ⟨k', v'⟩ := kv
    by_cases h : k' = k
    · simp [StrMap.remove, h, ih]
    · simp [StrMap.remove, StrMap.find, h, ih]

theorem StrMap.find_remove_ne {α : Type} (m : StrMap α) (k n : String) (h : n ≠ k) :
    (m.remove k).find n = m.find n := by
  induction m with
  | nil => simp [StrMap.remove, StrMap.find]
  | cons kv rest ih =>
    obtain ⟨k', v'⟩ := kv
    by_cases hk : k' = k
    · subst hk
      simp [StrMap.remove, StrMap.find, Ne.symm h, ih]
    · by_cases hn : k' = n
      · subst hn
        simp [StrMap.remove, StrMap.find, hk]
      · simp [StrMap.remove, StrMap.find, hk, hn, ih]

theorem StrMap.find_update_self {α : Type} (m : StrMap α) (k : String) (g : α → α) :
    (m.update k g).find k = (m.find k).map g := by
  induction m with
  | nil => simp [StrMap.update, StrMap.find]
  | cons kv rest ih =>
    obtain ⟨k', v'⟩ := kv
    by_cases h : k' = k
    · simp [StrMap.update, StrMap.find, h]
    · simp [StrMap.update, StrMap.find, h, ih]

theorem StrMap.find_update_ne {α : Type} (m : StrMap α) (k n : String) (g : α → α) (h : n ≠ k) :
    (m.update k g).find n = m.find n := by
  induction m with
  | nil => simp [StrMap.update, StrMap.find]
  | cons kv rest ih =>
    obtain ⟨k', v'⟩ := kv
    by_cases hk : k' = k
    · subst hk
      simp [StrMap.update, StrMap.find, Ne.symm h, ih]
    · by_cases hn : k' = n
      · subst hn
        simp [StrMap.update, StrMap.find, hk]
      · simp [StrMap.update, StrMap.find, hk, hn, ih]

/-! ## Frame lemmas: what the steps of `visit(FunctionAST*)` leave alone -/

theorem emitLocation_frame (AST : Option ExprAST) (st : Engine) :
    (emitLocation AST st).LexicalBlocks = st.LexicalBlocks ∧
    (emitLocation AST st).FunctionProtos = st.FunctionProtos ∧
    (emitLocation AST st).NamedValues = st.NamedValues ∧
    (emitLocation AST st).TheModule = st.TheModule ∧
    (emitLocation AST st).DBuilder = st.DBuilder ∧
    (emitLocation AST st).Builder.InsertBlock = st.Builder.InsertBlock ∧
    (emitLocation AST st).result_val = st.result_val ∧
    (emitLocation AST st).result_func = st.result_func := by
  cases AST <;> simp [emitLocation, Engine.SetCurrentDebugLocation]

theorem Insert_frame (op : Opcode) (st : Engine) :
    (st.Insert op).LexicalBlocks = st.LexicalBlocks ∧
    (st.Insert op).FunctionProtos = st.FunctionProtos ∧
    (st.Insert op).NamedValues = st.NamedValues ∧
    (st.Insert op).Builder = st.Builder ∧
    (st.Insert op).DBuilder = st.DBuilder ∧
    (st.Insert op).result_val = st.result_val ∧
    (st.Insert op).result_func = st.result_func := by
  unfold Engine.Insert
  cases st.Builder.InsertBlock <;> simp

theorem insertDeclare_frame (a : Value) (D : DILocalVariable) (DL : DILocation)
    (bb : Option BlockRef) (st : Engine) :
    (insertDeclare a D DL bb st).LexicalBlocks = st.LexicalBlocks ∧
    (insertDeclare a D DL bb st).FunctionProtos = st.FunctionProtos ∧
    (insertDeclare a D DL bb st).NamedValues = st.NamedValues ∧
    (insertDeclare a D DL bb st).Builder = st.Builder ∧
    (insertDeclare a D DL bb st).DBuilder = st.DBuilder ∧
    (insertDeclare a D DL bb st).result_val = st.result_val ∧
    (insertDeclare a D DL bb st).result_func = st.result_func := by
  cases bb <;> simp [insertDeclare]

theorem bindArgument_frame (F : String) (SP : DISubprogram) (U : DIFile) (L : Nat) (a : String)
    (i : Nat) (st : Engine) :
    (bindArgument F SP U L a i st).LexicalBlocks = st.LexicalBlocks ∧
    (bindArgument F SP U L a i st).FunctionProtos = st.FunctionProtos ∧
    (bindArgument F SP U L a i st).Builder = st.Builder ∧
    (bindArgument F SP U L a i st).DBuilder.compileUnits = st.DBuilder.compileUnits ∧
    (bindArgument F SP U L a i st).DBuilder.finalized = st.DBuilder.finalized := by
  simp only [bindArgument, CreateEntryBlockAlloca, getDoubleTy, createParameterVariable, CreateStore]
  cases st.DblTy <;> simp [(Insert_frame _ _), (insertDeclare_frame _ _ _ _ _)]

theorem bindArguments_frame (F : String) (SP : DISubprogram) (U : DIFile) (L : Nat)
    (args : List String) :
    ∀ (i : Nat) (st : Engine),
    (bindArguments F SP U L args i st).LexicalBlocks = st.LexicalBlocks ∧
    (bindArguments F SP U L args i st).FunctionProtos = st.FunctionProtos ∧
    (bindArguments F SP U L args i st).Builder = st.Builder ∧
    (bindArguments F SP U L args i st).DBuilder.compileUnits = st.DBuilder.compileUnits ∧
    (bindArguments F SP U L args i st).DBuilder.finalized = st.DBuilder.finalized := by
  induction args with
  | nil => intro i st; simp [bindArguments]
  | cons a rest ih =>
    intro i st
    obtain ⟨h1, h2, h3, h4, h5⟩ := ih (i + 1) (bindArgument F SP U L a i st)
    obtain ⟨g1, g2, g3, g4, g5⟩ := bindArgument_frame F SP U L a i st
    simp only [bindArguments]
    exact ⟨h1.trans g1, h2.trans g2, h3.trans g3, h4.trans g4, h5.trans g5⟩

theorem openFunction_frame (P : PrototypeAST) (F : String) (st : Engine) :
    (openFunction P F st).2.LexicalBlocks
      = st.LexicalBlocks ++ [DIScope.subprogram (openFunction P F st).1.2] ∧
    (openFunction P F st).2.FunctionProtos = st.FunctionProtos ∧
    (openFunction P F st).2.Builder.CurrentDebugLocation = none ∧
    (openFunction P F st).2.Builder.InsertBlock = some (BasicBlock_Create "entry" F st).1 ∧
    (openFunction P F st).2.DBuilder.compileUnits = st.DBuilder.compileUnits ∧
    (openFunction P F st).2.DBuilder.finalized = st.DBuilder.finalized := by
  simp only [openFunction, CreateFunctionType, getDoubleTy, BasicBlock_Create, Engine.SetInsertPoint]
  cases st.DblTy <;>
    simp [createFunction, setSubprogram, emitLocation, Engine.SetCurrentDebugLocation]

theorem prologue_frame (P : PrototypeAST) (F : String) (st : Engine) :
    (prologue P F st).LexicalBlocks
      = st.LexicalBlocks ++ [DIScope.subprogram (openFunction P F st).1.2] ∧
    (prologue P F st).FunctionProtos = st.FunctionProtos ∧
    (prologue P F st).Builder.CurrentDebugLocation = none ∧
    (prologue P F st).Builder.InsertBlock = some (BasicBlock_Create "entry" F st).1 ∧
    (prologue P F st).DBuilder.compileUnits = st.DBuilder.compileUnits ∧
    (prologue P F st).DBuilder.finalized = st.DBuilder.finalized := by
  obtain ⟨o1, o2, o3, o4, o5, o6⟩ := openFunction_frame P F st
  simp only [prologue]
  refine ⟨?_, ?_, ?_, ?_, ?_, ?_⟩ <;> simp [(bindArguments_frame _ _ _ _ _ _ _), *]

theorem finishFunction_frame (env : Collaborators) (F : String) (st : Engine) :
    (finishFunction env F st).LexicalBlocks = st.LexicalBlocks.dropLast ∧
    (finishFunction env F st).FunctionProtos = st.FunctionProtos ∧
    (finishFunction env F st).DBuilder = st.DBuilder := by
  unfold finishFunction
  cases st.result_val <;> simp [eraseFromParent, CreateRet, (Insert_frame _ _)]

/-! ## The reference instance satisfies the frame conditions -/

theorem refGetFunction_frame (n : String) (s : Engine) :
    (refGetFunction n s).LexicalBlocks = s.LexicalBlocks ∧
    (refGetFunction n s).FunctionProtos = s.FunctionProtos ∧
    (refGetFunction n s).DBuilder = s.DBuilder := by
  unfold refGetFunction
  cases s.TheModule.getFunction n with
  | some F => simp
  | none =>
    cases s.FunctionProtos.find n with
    | some P => simp [refVisitPrototype]
    | none => simp

theorem refVisitExpr_frame (e : ExprAST) (s : Engine) :
    (refVisitExpr e s).LexicalBlocks = s.LexicalBlocks ∧
    (refVisitExpr e s).FunctionProtos = s.FunctionProtos ∧
    (refVisitExpr e s).Builder = s.Builder ∧
    (refVisitExpr e s).DBuilder = s.DBuilder := by
  obtain ⟨k, l, c, t, ch⟩ := e
  cases k <;> simp [refVisitExpr]
  cases s.NamedValues.find t <;> simp [(Insert_frame _ _)]

theorem accept_eq (env : Collaborators) (expr : ExprAST) (st : Engine) :
    accept env expr st = env.visitExpr expr (emitLocation (some expr) st) := by
  unfold accept
  cases expr.kind <;> rfl

theorem accept_refBase_frame (e : ExprAST) (s : Engine) :
    (accept refBase e s).LexicalBlocks = s.LexicalBlocks ∧
    (accept refBase e s).FunctionProtos = s.FunctionProtos ∧
    (accept refBase e s).Builder.InsertBlock = s.Builder.InsertBlock ∧
    (accept refBase e s).DBuilder = s.DBuilder := by
  rw [accept_eq]
  obtain ⟨h1, h2, h3, h4⟩ := refVisitExpr_frame e (emitLocation (some e) s)
  obtain ⟨g1, g2, -, -, g5, g6, -, -⟩ := emitLocation_frame (some e) s
  exact ⟨h1.trans g1, h2.trans g2, (congrArg IRBuilder.InsertBlock h3).trans g6, h4.trans g5⟩

/-! ## Blocks and instructions after an insertion -/

theorem modifyAt_getElem_self {α : Type} (g : α → α) (l : List α) :
    ∀ n : Nat, (modifyAt g l n)[n]? = (l[n]?).map g := by
  induction l with
  | nil => intro n; simp [modifyAt]
  | cons a rest ih =>
    intro n
    cases n with
    | zero => simp [modifyAt]
    | succ m => simpa [modifyAt] using ih m

theorem modifyAt_getElem_ne {α : Type} (g : α → α) (l : List α) :
    ∀ n m : Nat, m ≠ n → (modifyAt g l n)[m]? = l[m]? := by
  induction l with
  | nil => intro n m _; simp [modifyAt]
  | cons a rest ih =>
    intro n m h
    cases n with
    | zero =>
      cases m with
      | zero => exact absurd rfl h
      | succ k => simp [modifyAt]
    | succ j =>
      cases m with
      | zero => simp [modifyAt]
      | succ k => simpa [modifyAt] using ih j k (fun e => h (by rw [e]))

theorem modifyAt_length {α : Type} (g : α → α) (l : List α) :
    ∀ n : Nat, (modifyAt g l n).length = l.length := by
  induction l with
  | nil => intro n; simp [modifyAt]
  | cons a rest ih =>
    intro n
    cases n with
    | zero => simp [modifyAt]
    | succ m => simpa [modifyAt] using ih m

theorem getFunction_updateFunction_self (M : Module) (F : String) (g : Function → Function) :
    (M.updateFunction F g).getFunction F = (M.getFunction F).map g := by
  simp [Module.updateFunction, Module.getFunction, StrMap.find_update_self]

theorem getFunction_updateFunction_ne (M : Module) (F G : String) (g : Function → Function)
    (h : G ≠ F) : (M.updateFunction F g).getFunction G = M.getFunction G := by
  simp [Module.updateFunction, Module.getFunction, StrMap.find_update_ne _ _ _ _ h]

theorem instsOf_updateInsts_self (M : Module) (bb : BlockRef)
    (h : List Instruction → List Instruction) (hb : M.HasBlock bb) :
    (M.updateInsts bb h).instsOf bb = h (M.instsOf bb) := by
  obtain ⟨G, hG, hidx⟩ := hb
  have hb : G.blocks[bb.idx]? = some (G.blocks[bb.idx]) := List.getElem?_eq_getElem hidx
  simp [Module.instsOf, Module.updateInsts, getFunction_updateFunction_self, hG,
    Function.updateBlock, modifyAt_getElem_self, hb]

theorem instsOf_updateInsts_missing (M : Module) (bb : BlockRef)
    (h : List Instruction → List Instruction) (hb : ¬ M.HasBlock bb) :
    (M.updateInsts bb h).instsOf bb = [] := by
  cases hG : M.getFunction bb.fn with
  | none => simp [Module.instsOf, Module.updateInsts, getFunction_updateFunction_self, hG]
  | some G =>
    have hidx : G.blocks.length ≤ bb.idx := by
      by_contra hlt
      exact hb ⟨G, hG, Nat.lt_of_not_le hlt⟩
    have hnone : G.blocks[bb.idx]? = none := List.getElem?_eq_none hidx
    simp [Module.instsOf, Module.updateInsts, getFunction_updateFunction_self, hG,
      Function.updateBlock, modifyAt_getElem_self, hnone]

theorem instsOf_updateInsts_ne (M : Module) (bb bb' : BlockRef)
    (h : List Instruction → List Instruction) (hne : bb' ≠ bb) :
    (M.updateInsts bb h).instsOf bb' = M.instsOf bb' := by
  by_cases hfn : bb'.fn = bb.fn
  · have hidx : bb'.idx ≠ bb.idx := by
      intro e
      apply hne
      cases bb; cases bb'; simp_all
    cases hG : M.getFunction bb.fn with
    | none =>
      simp [Module.instsOf, Module.updateInsts, hfn, getFunction_updateFunction_self, hG]
    | some G =>
      simp [Module.instsOf, Module.updateInsts, hfn, getFunction_updateFunction_self, hG,
        Function.updateBlock, modifyAt_getElem_ne _ _ _ _ hidx]
  · simp [Module.instsOf, Module.updateInsts, getFunction_updateFunction_ne _ _ _ _ hfn]

theorem hasBlock_updateInsts (M : Module) (bb bb' : BlockRef)
    (h : List Instruction → List Instruction) (hb : M.HasBlock bb') :
    (M.updateInsts bb h).HasBlock bb' := by
  obtain ⟨G, hG, hidx⟩ := hb
  by_cases hfn : bb'.fn = bb.fn
  · refine ⟨G.updateBlock bb.idx (fun b => { b with insts := h b.insts }), ?_, ?_⟩
    · rw [hfn] at hG ⊢
      simp [Module.updateInsts, getFunction_updateFunction_self, hG]
    · simpa [Function.updateBlock, modifyAt_length] using hidx
  · exact ⟨G, by simp [Module.updateInsts, getFunction_updateFunction_ne _ _ _ _ hfn, hG], hidx⟩

/-- An instruction appended to an existing block is its last instruction. -/
theorem instsOf_appendInst_self (M : Module) (bb : BlockRef) (i : Instruction) (F : Function)
    (hF : M.getFunction bb.fn = some F) (hidx : bb.idx < F.blocks.length) :
    (M.appendInst bb i).instsOf bb = M.instsOf bb ++ [i] :=
  instsOf_updateInsts_self M bb _ ⟨F, hF, hidx⟩

/-- Instructions stay where they are when another is added in front of or
behind the instructions of a block. -/
theorem mem_instsOf_updateInsts (M : Module) (bb bb' : BlockRef)
    (h : List Instruction → List Instruction) (hmono : ∀ l x, x ∈ l → x ∈ h l)
    (x : Instruction) (hx : x ∈ M.instsOf bb') : x ∈ (M.updateInsts bb h).instsOf bb' := by
  by_cases hbb : bb' = bb
  · subst hbb
    by_cases hb : M.HasBlock bb'
    · rw [instsOf_updateInsts_self M bb' h hb]
      exact hmono _ _ hx
    · exfalso
      have : M.instsOf bb' = [] := by
        cases hG : M.getFunction bb'.fn with
        | none => simp [Module.instsOf, hG]
        | some G =>
          have hidx : G.blocks.length ≤ bb'.idx := by
            by_contra hlt
            exact hb ⟨G, hG, Nat.lt_of_not_le hlt⟩
          simp [Module.instsOf, hG, List.getElem?_eq_none hidx]
      rw [this] at hx
      exact absurd hx (List.not_mem_nil x)
  · rw [instsOf_updateInsts_ne M bb bb' h hbb]
    exact hx

/-! ## Argument names -/

theorem distinctNames_unique_position (l : List String) (h : distinctNames l = true) :
    ∀ (k : Nat) (n : String), l[k]? = some n → n ≠ "" →
      ∀ j : Nat, k < j → l[j]? ≠ some n := by
  induction l with
  | nil => intro k n hk; simp at hk
  | cons a rest ih =>
    simp only [distinctNames, Bool.and_eq_true, Bool.or_eq_true, decide_eq_true_eq,
      Bool.not_eq_true', decide_eq_false_iff_not] at h
    obtain ⟨ha, hrest⟩ := h
    intro k n hk hn j hj
    cases j with
    | zero => exact absurd hj (Nat.not_lt_zero _)
    | succ j' =>
      cases k with
      | zero =>
        have hna : a = n := by simpa using hk
        subst hna
        have hnot : a ∉ rest := by
          cases ha with
          | inl e => exact absurd e hn
          | inr e => exact e
        intro e
        exact hnot (List.mem_iff_getElem?.mpr ⟨j', by simpa using e⟩)
      | succ k' =>
        have := ih hrest k' n (by simpa using hk) hn j' (Nat.lt_of_succ_lt_succ hj)
        simpa using this

theorem uniqueName_fresh (used : List String) (L : Nat) (Name : String) :
    (uniqueName used L Name).1 = "" ∨ (uniqueName used L Name).1 ∉ used := by
  unfold uniqueName
  by_cases h1 : Name = ""
  · simp [h1]
  · by_cases h2 : Name ∈ used
    · simp only [h1, if_false, h2, not_true_eq_false]
      cases hf : (List.range (used.length + 1)).find?
          (fun i => !decide (Name ++ toString (L + 1 + i) ∈ used)) with
      | none => exact Or.inl rfl
      | some i =>
        have := List.find?_some hf
        right
        simpa using this
    · simp [h1, h2]

theorem setArgNames_distinct (names : List String) :
    ∀ (used : List String) (L : Nat),
      distinctNames (setArgNames names used L) = true ∧
      ∀ x ∈ setArgNames names used L, x ≠ "" → x ∉ used := by
  induction names with
  | nil => intro used L; simp [setArgNames, distinctNames]
  | cons n rest ih =>
    intro used L
    obtain ⟨hd, hfresh⟩ := ih ((uniqueName used L n).1 :: used) (uniqueName used L n).2
    refine ⟨?_, ?_⟩
    · simp only [setArgNames, distinctNames, Bool.and_eq_true, Bool.or_eq_true,
        decide_eq_true_eq, Bool.not_eq_true', decide_eq_false_iff_not]
      refine ⟨?_, hd⟩
      by_cases he : (uniqueName used L n).1 = ""
      · exact Or.inl he
      · right
        intro hmem
        exact hfresh _ hmem he (List.mem_cons_self _ _)
    · intro x hx hne
      simp only [setArgNames, List.mem_cons] at hx
      cases hx with
      | inl e =>
        subst e
        cases uniqueName_fresh used L n with
        | inl e0 => exact absurd e0 hne
        | inr e1 => exact e1
      | inr hmem =>
        intro hu
        exact hfresh x hmem hne (List.mem_cons_of_mem _ hu)

theorem declareFunction_args (Args : List String) :
    (declareFunction Args).args = setArgNames Args [] 0 := by
  unfold declareFunction
  simp [(setArgNames_distinct Args [] 0).1]

/-! ## The two ways through `visit(FunctionAST*)` -/

theorem visit_FunctionAST_unresolved (env : Collaborators) (expr : FunctionAST) (st : Engine)
    (h : (resolveFunction env expr st).result_func = none) :
    visit_FunctionAST env expr st = { resolveFunction env expr st with result_func := none } := by
  simp only [visit_FunctionAST, h]

theorem visit_FunctionAST_resolved (env : Collaborators) (expr : FunctionAST) (st : Engine)
    (F : String) (h : (resolveFunction env expr st).result_func = some F) :
    visit_FunctionAST env expr st
      = finishFunction env F (bodyEnd env expr F (resolveFunction env expr st)) := by
  simp only [visit_FunctionAST, h]

/-! ## The loop over the arguments -/

theorem bindArgument_effect (F : String) (SP : DISubprogram) (U : DIFile) (L : Nat) (a : String)
    (i : Nat) (st : Engine) (nb : BlockRef) (hIB : st.Builder.InsertBlock = some nb) :
      (bindArgument F SP U L a i st).TheModule
        = ((st.TheModule.prependInst ⟨F, 0⟩ ⟨Opcode.alloca (Value.alloca st.nextSlot) a, none⟩).appendInst
              nb ⟨Opcode.dbgDeclare (Value.alloca st.nextSlot)
                    ⟨SP, a, i + 1, U, L, (getDoubleTy st).1, true⟩,
                    some ⟨L, 0, DIScope.subprogram SP⟩⟩).appendInst
            nb ⟨Opcode.store (Value.argument F i) (Value.alloca st.nextSlot),
                  st.Builder.CurrentDebugLocation⟩ ∧
      (bindArgument F SP U L a i st).NamedValues
        = st.NamedValues.assign a (Value.alloca st.nextSlot) ∧
      (bindArgument F SP U L a i st).nextSlot = st.nextSlot + 1 ∧
      (bindArgument F SP U L a i st).Builder = st.Builder := by
  simp only [bindArgument, CreateEntryBlockAlloca, getDoubleTy, createParameterVariable, CreateStore]
  cases st.DblTy <;> simp [hIB, insertDeclare, Engine.Insert, DILocation_get, adjustColumn]

theorem hasBlock_entry (M : Module) (nb : BlockRef) (F : String) (hfn : nb.fn = F)
    (hb : M.HasBlock nb) : M.HasBlock ⟨F, 0⟩ := by
  obtain ⟨G, hG, hidx⟩ := hb
  exact ⟨G, by simpa [hfn] using hG, Nat.lt_of_le_of_lt (Nat.zero_le _) hidx⟩

theorem bindArgument_step (F : String) (SP : DISubprogram) (U : DIFile) (L : Nat) (a : String)
    (i : Nat) (st : Engine) (nb : BlockRef) (hIB : st.Builder.InsertBlock = some nb)
    (hfn : nb.fn = F) (hb : st.TheModule.HasBlock nb) :
    (∀ bb, st.TheModule.HasBlock bb → (bindArgument F SP U L a i st).TheModule.HasBlock bb) ∧
    (∀ bb x, x ∈ st.TheModule.instsOf bb →
      x ∈ (bindArgument F SP U L a i st).TheModule.instsOf bb) ∧
    (⟨Opcode.alloca (Value.alloca st.nextSlot) a, none⟩ : Instruction)
      ∈ (bindArgument F SP U L a i st).TheModule.instsOf ⟨F, 0⟩ ∧
    (⟨Opcode.store (Value.argument F i) (Value.alloca st.nextSlot),
        st.Builder.CurrentDebugLocation⟩ : Instruction)
      ∈ (bindArgument F SP U L a i st).TheModule.instsOf nb ∧
    ((bindArgument F SP U L a i st).TheModule.instsOf nb).filter Instruction.isStore
      = (st.TheModule.instsOf nb).filter Instruction.isStore ++
          [⟨Opcode.store (Value.argument F i) (Value.alloca st.nextSlot),
            st.Builder.CurrentDebugLocation⟩] := by
  obtain ⟨hM, -, -, -⟩ := bindArgument_effect F SP U L a i st nb hIB
  rw [hM]
  simp only [Module.appendInst, Module.prependInst]
  have hb0 : st.TheModule.HasBlock ⟨F, 0⟩ := hasBlock_entry _ nb F hfn hb
  have happ : ∀ (y : Instruction) (l : List Instruction) (x : Instruction),
      x ∈ l → x ∈ (fun l => l ++ [y]) l := fun y l x hx => List.mem_append_left _ hx
  have hpre : ∀ (y : Instruction) (l : List Instruction) (x : Instruction),
      x ∈ l → x ∈ (fun l => y :: l) l := fun y l x hx => List.mem_cons_of_mem _ hx
  refine ⟨?_, ?_, ?_, ?_, ?_⟩
  · intro bb h
    exact hasBlock_updateInsts _ _ _ _ (hasBlock_updateInsts _ _ _ _ (hasBlock_updateInsts _ _ _ _ h))
  · intro bb x hx
    exact mem_instsOf_updateInsts _ _ _ _ (happ _) _
      (mem_instsOf_updateInsts _ _ _ _ (happ _) _ (mem_instsOf_updateInsts _ _ _ _ (hpre _) _ hx))
  · apply mem_instsOf_updateInsts _ _ _ _ (happ _)
    apply mem_instsOf_updateInsts _ _ _ _ (happ _)
    rw [instsOf_updateInsts_self _ _ _ hb0]
    exact List.mem_cons_self _ _
  · rw [instsOf_updateInsts_self _ _ _
      (hasBlock_updateInsts _ _ _ _ (hasBlock_updateInsts _ _ _ _ hb))]
    exact List.mem_append_right _ (List.mem_singleton_self _)
  · rw [instsOf_updateInsts_self _ _ _
      (hasBlock_updateInsts _ _ _ _ (hasBlock_updateInsts _ _ _ _ hb)),
      instsOf_updateInsts_self _ _ _ (hasBlock_updateInsts _ _ _ _ hb)]
    by_cases hnb : nb = ⟨F, 0⟩
    · subst hnb
      rw [instsOf_updateInsts_self _ _ _ hb0]
      simp [List.filter_cons, Instruction.isStore]
    · rw [instsOf_updateInsts_ne _ _ _ _ hnb]
      simp [List.filter_cons, Instruction.isStore]

theorem not_mem_of_last_occurrence (a : String) (rest : List String)
    (h : ∀ j, 0 < j → (a :: rest)[j]? ≠ some a) : a ∉ rest := by
  intro hmem
  obtain ⟨j, hj⟩ := List.mem_iff_getElem?.mp hmem
  exact h (j + 1) (Nat.succ_pos j) (by simpa using hj)

theorem bindArguments_spec (F : String) (SP : DISubprogram) (U : DIFile) (L : Nat)
    (nb : BlockRef) (hfn : nb.fn = F) (args : List String) :
    ∀ (i : Nat) (st : Engine), st.Builder.InsertBlock = some nb → st.TheModule.HasBlock nb →
    (bindArguments F SP U L args i st).TheModule.HasBlock nb ∧
    (∀ bb x, x ∈ st.TheModule.instsOf bb →
      x ∈ (bindArguments F SP U L args i st).TheModule.instsOf bb) ∧
    (∀ n, n ∉ args →
      (bindArguments F SP U L args i st).NamedValues.find n = st.NamedValues.find n) ∧
    (∀ k n, args[k]? = some n → (∀ j, k < j → args[j]? ≠ some n) →
      (bindArguments F SP U L args i st).NamedValues.find n
        = some (Value.alloca (st.nextSlot + k)) ∧
      (⟨Opcode.alloca (Value.alloca (st.nextSlot + k)) n, none⟩ : Instruction)
        ∈ (bindArguments F SP U L args i st).TheModule.instsOf ⟨F, 0⟩ ∧
      (⟨Opcode.store (Value.argument F (i + k)) (Value.alloca (st.nextSlot + k)),
          st.Builder.CurrentDebugLocation⟩ : Instruction)
        ∈ (bindArguments F SP U L args i st).TheModule.instsOf nb) ∧
    ((bindArguments F SP U L args i st).TheModule.instsOf nb).filter Instruction.isStore
      = (st.TheModule.instsOf nb).filter Instruction.isStore ++
          (List.range args.length).map (fun k =>
            (⟨Opcode.store (Value.argument F (i + k)) (Value.alloca (st.nextSlot + k)),
              st.Builder.CurrentDebugLocation⟩ : Instruction)) := by
  induction args with
  | nil =>
    intro i st _ hb
    simp [bindArguments, hb]
  | cons a rest ih =>
    intro i st hIB hb
    obtain ⟨-, eNV, eSlot, eB⟩ := bindArgument_effect F SP U L a i st nb hIB
    obtain ⟨sHas, sMem, sAlloca, sStore, sFilter⟩ := bindArgument_step F SP U L a i st nb hIB hfn hb
    have hIB1 : (bindArgument F SP U L a i st).Builder.InsertBlock = some nb := by rw [eB]; exact hIB
    obtain ⟨iHas, iMem, iNV, iArg, iFilter⟩ :=
      ih (i + 1) (bindArgument F SP U L a i st) hIB1 (sHas nb hb)
    simp only [bindArguments]
    refine ⟨iHas, fun bb x hx => iMem bb x (sMem bb x hx), ?_, ?_, ?_⟩
    · intro n hn
      have hna : n ≠ a := fun e => hn (e ▸ List.mem_cons_self _ _)
      have hnr : n ∉ rest := fun e => hn (List.mem_cons_of_mem _ e)
      rw [iNV n hnr, eNV, StrMap.find_assign_ne _ _ _ _ hna]
    · intro k n hk hlast
      cases k with
      | zero =>
        have hn : a = n := by simpa using hk
        subst hn
        have hnr : a ∉ rest := not_mem_of_last_occurrence a rest hlast
        refine ⟨?_, ?_, ?_⟩
        · rw [iNV a hnr, eNV, StrMap.find_assign_self]; rfl
        · exact iMem _ _ sAlloca
        · exact iMem _ _ sStore
      | succ k' =>
        have hk' : rest[k']? = some n := by simpa using hk
        have hlast' : ∀ j, k' < j → rest[j]? ≠ some n := by
          intro j hj
          have := hlast (j + 1) (Nat.succ_lt_succ hj)
          simpa using this
        obtain ⟨h1, h2, h3⟩ := iArg k' n hk' hlast'
        have e1 : (bindArgument F SP U L a i st).nextSlot + k' = st.nextSlot + (k' + 1) := by
          rw [eSlot]; omega
        have e2 : i + 1 + k' = i + (k' + 1) := by omega
        rw [e1] at h1 h2 h3
        rw [e2, eB] at h3
        exact ⟨h1, h2, h3⟩
    · rw [iFilter, sFilter, List.append_assoc, List.length_cons, List.range_succ_eq_map,
        List.map_cons, List.map_map, eB, eSlot]
      congr 1
      rw [List.singleton_append, Nat.add_zero, Nat.add_zero]
      congr 1
      apply List.map_congr_left
      intro k _
      simp only [Function.comp]
      have e1 : st.nextSlot + 1 + k = st.nextSlot + (k + 1) := by omega
      have e2 : i + 1 + k = i + (k + 1) := by omega
      rw [e1, e2]

theorem exists_last_occurrence (n : String) (l : List String) (h : n ∈ l) :
    ∃ k : Nat, l[k]? = some n ∧ ∀ j : Nat, k < j → l[j]? ≠ some n := by
  induction l with
  | nil => exact absurd h (List.not_mem_nil n)
  | cons a rest ih =>
    by_cases hr : n ∈ rest
    · obtain ⟨k, hk, hlast⟩ := ih hr
      refine ⟨k + 1, by simpa using hk, ?_⟩
      intro j hj
      cases j with
      | zero => exact absurd hj (Nat.not_lt_zero _)
      | succ j' => simpa using hlast j' (Nat.lt_of_succ_lt_succ hj)
    · have hn : n = a := by
        cases List.mem_cons.mp h with
        | inl e => exact e
        | inr e => exact absurd e hr
      subst hn
      refine ⟨0, by simp, ?_⟩
      intro j hj
      cases j with
      | zero => exact absurd hj (Nat.lt_irrefl 0)
      | succ j' =>
        intro e
        exact hr (List.mem_iff_getElem?.mpr ⟨j', by simpa using e⟩)

theorem openFunction_effect (P : PrototypeAST) (F : String) (st : Engine) (G : Function)
    (hF : st.TheModule.getFunction F = some G) :
    (openFunction P F st).2.Builder.InsertBlock = some ⟨F, G.blocks.length⟩ ∧
    (openFunction P F st).2.Builder.CurrentDebugLocation = none ∧
    (openFunction P F st).2.TheModule.HasBlock ⟨F, G.blocks.length⟩ ∧
    (openFunction P F st).2.TheModule.instsOf ⟨F, G.blocks.length⟩ = [] ∧
    argsOf F (openFunction P F st).2 = G.args ∧
    (openFunction P F st).2.nextSlot = st.nextSlot := by
  simp only [openFunction, CreateFunctionType, getDoubleTy, BasicBlock_Create, Engine.SetInsertPoint]
  cases st.DblTy <;>
    simp [createFunction, setSubprogram, emitLocation, Engine.SetCurrentDebugLocation, hF,
      Module.HasBlock, Module.instsOf, argsOf, arg_size, getFunction_updateFunction_self]

/-- What the prologue has done, for a function object present in the module:
the bindings, the slots, the stores. -/
theorem prologue_spec (P : PrototypeAST) (F : String) (st : Engine) (G : Function)
    (hF : st.TheModule.getFunction F = some G) :
    (∀ n, n ∉ G.args → (prologue P F st).NamedValues.find n = none) ∧
    (∀ (k : Nat) (n : String), G.args[k]? = some n → (∀ j : Nat, k < j → G.args[j]? ≠ some n) →
      (prologue P F st).NamedValues.find n = some (Value.alloca (st.nextSlot + k)) ∧
      (⟨Opcode.alloca (Value.alloca (st.nextSlot + k)) n, none⟩ : Instruction)
        ∈ (prologue P F st).TheModule.instsOf ⟨F, 0⟩ ∧
      (⟨Opcode.store (Value.argument F k) (Value.alloca (st.nextSlot + k)), none⟩ : Instruction)
        ∈ (prologue P F st).TheModule.instsOf ⟨F, G.blocks.length⟩) ∧
    ((prologue P F st).TheModule.instsOf ⟨F, G.blocks.length⟩).filter Instruction.isStore
      = (List.range G.args.length).map (fun k =>
          (⟨Opcode.store (Value.argument F k) (Value.alloca (st.nextSlot + k)), none⟩ :
            Instruction)) := by
  obtain ⟨oIB, oLoc, oHas, oEmpty, oArgs, oSlot⟩ := openFunction_effect P F st G hF
  have hargs : argsOf F { (openFunction P F st).2 with NamedValues := [] } = G.args := by
    simpa [argsOf] using oArgs
  have hpro : prologue P F st
      = bindArguments F (openFunction P F st).1.2 (openFunction P F st).1.1 P.Line G.args 0
          { (openFunction P F st).2 with NamedValues := [] } := by
    simp only [prologue]
    rw [hargs]
  obtain ⟨-, -, hNV, hArg, hFilter⟩ :=
    bindArguments_spec F (openFunction P F st).1.2 (openFunction P F st).1.1 P.Line
      ⟨F, G.blocks.length⟩ rfl G.args 0 { (openFunction P F st).2 with NamedValues := [] }
      oIB oHas
  have hs : ({ (openFunction P F st).2 with NamedValues := [] } : Engine).nextSlot
      = st.nextSlot := oSlot
  have hl : ({ (openFunction P F st).2 with NamedValues := [] } : Engine).Builder.CurrentDebugLocation
      = none := oLoc
  have he : ({ (openFunction P F st).2 with NamedValues := [] } : Engine).TheModule.instsOf
      ⟨F, G.blocks.length⟩ = [] := oEmpty
  rw [hs, hl] at hArg hFilter
  rw [he] at hFilter
  rw [hpro]
  refine ⟨?_, ?_, ?_⟩
  · intro n hn
    rw [hNV n hn]
    rfl
  · intro k n hk hl
    obtain ⟨h1, h2, h3⟩ := hArg k n hk hl
    rw [Nat.zero_add] at h3
    exact ⟨h1, h2, h3⟩
  · rw [hFilter]
    simp only [Nat.zero_add, List.filter_nil, List.nil_append]

/-- The verdict of the verifier has no influence on what `visit(FunctionAST*)`
leaves: with any other verifier the result is the same. -/
theorem visit_FunctionAST_verdict_unused (env : Collaborators) (verify : Function → Bool)
    (expr : FunctionAST) (st : Engine) :
    visit_FunctionAST { env with verifyFunction := verify } expr st
      = visit_FunctionAST env expr st := rfl

theorem visit_FunctionAST_DBuilder (env : Collaborators) (expr : FunctionAST) (st : Engine)
    (hget : ∀ s, (env.getFunction expr.Proto.Name s).DBuilder = s.DBuilder)
    (hbody : ∀ s, (accept env expr.Body s).DBuilder = s.DBuilder) :
    (visit_FunctionAST env expr st).DBuilder.compileUnits = st.DBuilder.compileUnits ∧
    (visit_FunctionAST env expr st).DBuilder.finalized = st.DBuilder.finalized := by
  have hres : (resolveFunction env expr st).DBuilder = st.DBuilder := by
    simp [resolveFunction, hget]
  cases h : (resolveFunction env expr st).result_func with
  | none =>
    rw [visit_FunctionAST_unresolved env expr st h]
    simp [hres]
  | some F =>
    rw [visit_FunctionAST_resolved env expr st F h]
    simp only [bodyEnd, bodyStart]
    rw [(finishFunction_frame _ _ _).2.2, hbody, (emitLocation_frame _ _).2.2.2.2.1,
      (prologue_frame _ _ _).2.2.2.2.1, (prologue_frame _ _ _).2.2.2.2.2, hres]
    exact ⟨rfl, rfl⟩

theorem refMainLoop_DBuilder (ast : TreeAST) (st : Engine) :
    (refMainLoop ast st).DBuilder.compileUnits = st.DBuilder.compileUnits ∧
    (refMainLoop ast st).DBuilder.finalized = st.DBuilder.finalized := by
  obtain ⟨nodes⟩ := ast
  simp only [refMainLoop]
  induction nodes generalizing st with
  | nil => exact ⟨rfl, rfl⟩
  | cons f rest ih =>
    obtain ⟨h1, h2⟩ := ih (visit_FunctionAST refBase f st)
    obtain ⟨g1, g2⟩ := visit_FunctionAST_DBuilder refBase f st
      (fun s => (refGetFunction_frame _ s).2.2) (fun s => (accept_refBase_frame _ s).2.2.2)
    simp only [List.foldl_cons]
    exact ⟨h1.trans g1, h2.trans g2⟩

/-! ## The claims -/

/-- C7, as amended: for a non-null node and an empty Lexical Scope Stack,
`emitLocation` sets the location `DILocation::get` makes of the node's line,
the node's column and the compile unit `TheCU` as scope: the line, the column
itself when it is below 65536 and column 0 otherwise, and `TheCU`.  That
location is not null, so it is not the location set for a null node, and
nothing but the location changes. -/
theorem emitLocation_empty_stack_uses_compile_unit (AST : ExprAST) (st : Engine)
    (hempty : st.LexicalBlocks = []) :
    emitLocation (some AST) st
      = st.SetCurrentDebugLocation
          (some (DILocation_get AST.getLine AST.getCol (DIScope.compileUnit st.TheCU))) ∧
    (AST.getCol < 65536 →
      (emitLocation (some AST) st).Builder.CurrentDebugLocation
        = some ⟨AST.getLine, AST.getCol, DIScope.compileUnit st.TheCU⟩) ∧
    (65536 ≤ AST.getCol →
      (emitLocation (some AST) st).Builder.CurrentDebugLocation
        = some ⟨AST.getLine, 0, DIScope.compileUnit st.TheCU⟩) ∧
    (emitLocation (some AST) st).Builder.CurrentDebugLocation ≠ none ∧
    (emitLocation (some AST) st).Builder.CurrentDebugLocation
      ≠ (emitLocation none st).Builder.CurrentDebugLocation := by
  refine ⟨?_, ?_, ?_, ?_, ?_⟩
  · simp [emitLocation, hempty]
  · intro h
    simp [emitLocation, Engine.SetCurrentDebugLocation, hempty, DILocation_get, adjustColumn, h]
  · intro h
    simp [emitLocation, Engine.SetCurrentDebugLocation, hempty, DILocation_get, adjustColumn,
      Nat.not_lt.mpr h]
  · simp [emitLocation, Engine.SetCurrentDebugLocation, hempty]
  · simp [emitLocation, Engine.SetCurrentDebugLocation, hempty]

/-- Witness for C7: the number node at line 1, column 9, in a fresh state. -/
theorem emitLocation_empty_stack_uses_compile_unit_witness :
    exampleEngine.LexicalBlocks = [] ∧
    (emitLocation (some exampleOne.Body) exampleEngine).Builder.CurrentDebugLocation
      = some ⟨1, 9, DIScope.compileUnit exampleCU⟩ :=
  ⟨rfl, (emitLocation_empty_stack_uses_compile_unit exampleOne.Body exampleEngine rfl).2.1
    (by decide)⟩

/-- C7 as stated fails: with an empty Lexical Scope Stack the location set for
the number node at line 1, column 9 is not null, and differs from the one set
for a null node. -/
theorem emitLocation_empty_stack_not_null :
    exampleEngine.LexicalBlocks = [] ∧
    (emitLocation (some exampleOne.Body) exampleEngine).Builder.CurrentDebugLocation ≠ none ∧
    (emitLocation (some exampleOne.Body) exampleEngine).Builder.CurrentDebugLocation
      ≠ (emitLocation none exampleEngine).Builder.CurrentDebugLocation := by
  refine ⟨rfl, ?_, ?_⟩ <;>
    simp [emitLocation, Engine.SetCurrentDebugLocation, exampleEngine]

/-- C8, as amended: for a node of each of the eight expression variants
(Number, Variable, Unary, Binary, Call, If, For, VarDecl) and a non-empty
Lexical Scope Stack, the visit runs the structural lowering in the state that
differs from the incoming one exactly in the current debug location, which is
the location `DILocation::get` makes of the node's line, the node's column
and the scope on top of the stack: (line, column, scope) when the column is
below 65536, (line, 0, scope) otherwise.  The visit of a Prototype node sets
no location: it runs the lowering in the incoming state. -/
theorem visit_sets_location_before_lowering (env : Collaborators) (st : Engine)
    (back : DIScope) (hstack : st.LexicalBlocks.getLast? = some back) :
    (∀ expr : ExprAST,
      (st.SetCurrentDebugLocation
          (some (DILocation_get expr.getLine expr.getCol back))).Builder.CurrentDebugLocation
        = some (DILocation_get expr.getLine expr.getCol back) ∧
      (expr.getCol < 65536 →
        DILocation_get expr.getLine expr.getCol back = ⟨expr.getLine, expr.getCol, back⟩) ∧
      (65536 ≤ expr.getCol →
        DILocation_get expr.getLine expr.getCol back = ⟨expr.getLine, 0, back⟩) ∧
      visit_NumberExprAST env expr st
        = env.visitExpr expr
            (st.SetCurrentDebugLocation (some (DILocation_get expr.getLine expr.getCol back))) ∧
      visit_VariableExprAST env expr st
        = env.visitExpr expr
            (st.SetCurrentDebugLocation (some (DILocation_get expr.getLine expr.getCol back))) ∧
      visit_UnaryExprAST env expr st
        = env.visitExpr expr
            (st.SetCurrentDebugLocation (some (DILocation_get expr.getLine expr.getCol back))) ∧
      visit_BinaryExprAST env expr st
        = env.visitExpr expr
            (st.SetCurrentDebugLocation (some (DILocation_get expr.getLine expr.getCol back))) ∧
      visit_CallExprAST env expr st
        = env.visitExpr expr
            (st.SetCurrentDebugLocation (some (DILocation_get expr.getLine expr.getCol back))) ∧
      visit_IfExprAST env expr st
        = env.visitExpr expr
            (st.SetCurrentDebugLocation (some (DILocation_get expr.getLine expr.getCol back))) ∧
      visit_ForExprAST env expr st
        = env.visitExpr expr
            (st.SetCurrentDebugLocation (some (DILocation_get expr.getLine expr.getCol back))) ∧
      visit_VarExprAST env expr st
        = env.visitExpr expr
            (st.SetCurrentDebugLocation (some (DILocation_get expr.getLine expr.getCol back))) ∧
      accept env expr st
        = env.visitExpr expr
            (st.SetCurrentDebugLocation (some (DILocation_get expr.getLine expr.getCol back)))) ∧
    (∀ P : PrototypeAST, visit_PrototypeAST env P st = env.visitPrototype P st) := by
  refine ⟨fun expr => ?_, fun P => rfl⟩
  have hloc : emitLocation (some expr) st
      = st.SetCurrentDebugLocation (some (DILocation_get expr.getLine expr.getCol back)) := by
    simp [emitLocation, hstack]
  refine ⟨rfl, ?_, ?_, ?_, ?_, ?_, ?_, ?_, ?_, ?_, ?_, ?_⟩
  · intro h
    simp [DILocation_get, adjustColumn, h]
  · intro h
    simp [DILocation_get, adjustColumn, Nat.not_lt.mpr h]
  · simp [visit_NumberExprAST, hloc]
  · simp [visit_VariableExprAST, hloc]
  · simp [visit_UnaryExprAST, hloc]
  · simp [visit_BinaryExprAST, hloc]
  · simp [visit_CallExprAST, hloc]
  · simp [visit_IfExprAST, hloc]
  · simp [visit_ForExprAST, hloc]
  · simp [visit_VarExprAST, hloc]
  · rw [accept_eq, hloc]

/-- Witness for C8: the variable node of `exampleFoo` visited inside a
function. -/
theorem visit_sets_location_before_lowering_witness :
    exampleInside.LexicalBlocks.getLast?
      = some (DIScope.subprogram ⟨0, ⟨"fib.arxks", "."⟩, "foo", "", ⟨"fib.arxks", "."⟩, 3, [], 3⟩) ∧
    accept refBase exampleFoo.Body exampleInside
      = refBase.visitExpr exampleFoo.Body
          (exampleInside.SetCurrentDebugLocation
            (some ⟨4, 7, DIScope.subprogram
              ⟨0, ⟨"fib.arxks", "."⟩, "foo", "", ⟨"fib.arxks", "."⟩, 3, [], 3⟩⟩)) :=
  ⟨rfl,
   ((visit_sets_location_before_lowering refBase exampleInside _ rfl).1
      exampleFoo.Body).2.2.2.2.2.2.2.2.2.2.2⟩

/-- C8 as stated fails for the Prototype variant: visited inside a function
with the null location current, the prototype of `exampleFoo` is lowered from
the incoming state itself, whose location is null, and not from a state whose
location is (its line, some column, the scope on top of the stack); the
location is still null when the lowering has run. -/
theorem visit_PrototypeAST_sets_no_location :
    exampleInside.LexicalBlocks.getLast?
      = some (DIScope.subprogram ⟨0, ⟨"fib.arxks", "."⟩, "foo", "", ⟨"fib.arxks", "."⟩, 3, [], 3⟩) ∧
    exampleInside.Builder.CurrentDebugLocation = none ∧
    visit_PrototypeAST refBase exampleFoo.Proto exampleInside
      = refBase.visitPrototype exampleFoo.Proto exampleInside ∧
    (visit_PrototypeAST refBase exampleFoo.Proto exampleInside).Builder.CurrentDebugLocation = none ∧
    ¬ ∃ col : Nat,
      visit_PrototypeAST refBase exampleFoo.Proto exampleInside
        = refBase.visitPrototype exampleFoo.Proto
            (exampleInside.SetCurrentDebugLocation
              (some ⟨exampleFoo.Proto.Line, col, DIScope.subprogram
                ⟨0, ⟨"fib.arxks", "."⟩, "foo", "", ⟨"fib.arxks", "."⟩, 3, [], 3⟩⟩)) := by
  refine ⟨rfl, rfl, rfl, rfl, ?_⟩
  rintro ⟨col, h⟩
  have h2 := congrArg (fun s => s.Builder.CurrentDebugLocation) h
  simp [visit_PrototypeAST, refBase, refVisitPrototype, Engine.SetCurrentDebugLocation,
    exampleInside, exampleEngine] at h2

/-- C1: `visit(FunctionAST*)` leaves the Lexical Scope Stack as it found it,
provided the lowering of the body does (and name resolution, which belongs to
the base class, does not touch the stack).  For a resolved function the
lowering of the body starts with exactly one more scope, the subprogram of the
function, on top of the incoming stack, and that scope is popped on the path
with a return and on the path that erases the function; when the function
object is not resolved the visit ends in the state name resolution left, with
only the result slot set to null. -/
theorem visit_FunctionAST_scope_stack_neutral (env : Collaborators) (expr : FunctionAST)
    (st : Engine)
    (hget : ∀ s, (env.getFunction expr.Proto.Name s).LexicalBlocks = s.LexicalBlocks)
    (hbody : ∀ s, (accept env expr.Body s).LexicalBlocks = s.LexicalBlocks) :
    (visit_FunctionAST env expr st).LexicalBlocks = st.LexicalBlocks ∧
    (∀ F, (resolveFunction env expr st).result_func = some F →
      (bodyStart expr F (resolveFunction env expr st)).LexicalBlocks
        = st.LexicalBlocks ++
            [DIScope.subprogram (openFunction expr.Proto F (resolveFunction env expr st)).1.2] ∧
      (bodyEnd env expr F (resolveFunction env expr st)).LexicalBlocks
        = st.LexicalBlocks ++
            [DIScope.subprogram (openFunction expr.Proto F (resolveFunction env expr st)).1.2] ∧
      (finishFunction env F (bodyEnd env expr F (resolveFunction env expr st))).LexicalBlocks
        = st.LexicalBlocks) ∧
    ((resolveFunction env expr st).result_func = none →
      visit_FunctionAST env expr st
        = { resolveFunction env expr st with result_func := none }) := by
  have hres : (resolveFunction env expr st).LexicalBlocks = st.LexicalBlocks := by
    simp [resolveFunction, hget]
  have hpath : ∀ F,
      (bodyStart expr F (resolveFunction env expr st)).LexicalBlocks
        = st.LexicalBlocks ++
            [DIScope.subprogram (openFunction expr.Proto F (resolveFunction env expr st)).1.2] ∧
      (bodyEnd env expr F (resolveFunction env expr st)).LexicalBlocks
        = st.LexicalBlocks ++
            [DIScope.subprogram (openFunction expr.Proto F (resolveFunction env expr st)).1.2] ∧
      (finishFunction env F (bodyEnd env expr F (resolveFunction env expr st))).LexicalBlocks
        = st.LexicalBlocks := by
    intro F
    have h1 : (bodyStart expr F (resolveFunction env expr st)).LexicalBlocks
        = st.LexicalBlocks ++
            [DIScope.subprogram (openFunction expr.Proto F (resolveFunction env expr st)).1.2] := by
      simp only [bodyStart]
      rw [(emitLocation_frame _ _).1, (prologue_frame _ _ _).1, hres]
    have h2 : (bodyEnd env expr F (resolveFunction env expr st)).LexicalBlocks
        = st.LexicalBlocks ++
            [DIScope.subprogram (openFunction expr.Proto F (resolveFunction env expr st)).1.2] := by
      simp only [bodyEnd]
      rw [hbody, h1]
    refine ⟨h1, h2, ?_⟩
    rw [(finishFunction_frame _ _ _).1, h2, List.dropLast_concat]
  refine ⟨?_, fun F _ => hpath F, ?_⟩
  · cases h : (resolveFunction env expr st).result_func with
    | none => rw [visit_FunctionAST_unresolved env expr st h]; exact hres
    | some F => rw [visit_FunctionAST_resolved env expr st F h]; exact (hpath F).2.2
  · intro h
    exact visit_FunctionAST_unresolved env expr st h

/-- Witness for C1: `def foo(a b a) a` lowered from a fresh state with the
reference collaborators. -/
theorem visit_FunctionAST_scope_stack_neutral_witness :
    (∀ s, (refBase.getFunction exampleFoo.Proto.Name s).LexicalBlocks = s.LexicalBlocks) ∧
    (∀ s, (accept refBase exampleFoo.Body s).LexicalBlocks = s.LexicalBlocks) ∧
    (visit_FunctionAST refBase exampleFoo exampleEngine).LexicalBlocks
      = exampleEngine.LexicalBlocks :=
  ⟨fun s => (refGetFunction_frame _ s).1, fun s => (accept_refBase_frame _ s).1,
   (visit_FunctionAST_scope_stack_neutral refBase exampleFoo exampleEngine
      (fun s => (refGetFunction_frame _ s).1) (fun s => (accept_refBase_frame _ s).1)).1⟩

/-- C2: when the function object is resolved and the body lowers to a null
current result, `visit(FunctionAST*)` removes the function under construction
from the module: afterwards the module has no function under that name and so
no block and no instruction of it (entry block, parameter slots and prologue
stores included); the module is the one the lowering of the body left, less
that function, so no return instruction was emitted; and the function-result
slot is null. -/
theorem visit_FunctionAST_null_body_erases (env : Collaborators) (expr : FunctionAST)
    (st : Engine) (F : String)
    (hres : (resolveFunction env expr st).result_func = some F)
    (hnull : (bodyEnd env expr F (resolveFunction env expr st)).result_val = none) :
    (visit_FunctionAST env expr st).TheModule.getFunction F = none ∧
    (∀ idx, (visit_FunctionAST env expr st).TheModule.instsOf ⟨F, idx⟩ = []) ∧
    (visit_FunctionAST env expr st).TheModule
      = { (bodyEnd env expr F (resolveFunction env expr st)).TheModule with
          functions :=
            (bodyEnd env expr F (resolveFunction env expr st)).TheModule.functions.remove F } ∧
    (∀ G, G ≠ F →
      (visit_FunctionAST env expr st).TheModule.getFunction G
        = (bodyEnd env expr F (resolveFunction env expr st)).TheModule.getFunction G) ∧
    (visit_FunctionAST env expr st).result_func = none := by
  have hmod : (visit_FunctionAST env expr st).TheModule
      = { (bodyEnd env expr F (resolveFunction env expr st)).TheModule with
          functions :=
            (bodyEnd env expr F (resolveFunction env expr st)).TheModule.functions.remove F } := by
    rw [visit_FunctionAST_resolved env expr st F hres]
    simp [finishFunction, hnull, eraseFromParent]
  have hnone : (visit_FunctionAST env expr st).TheModule.getFunction F = none := by
    rw [hmod]
    simp [Module.getFunction, StrMap.find_remove_self]
  refine ⟨hnone, ?_, hmod, ?_, ?_⟩
  · intro idx
    simp [Module.instsOf, hnone]
  · intro G hG
    rw [hmod]
    simp [Module.getFunction, StrMap.find_remove_ne _ _ _ hG]
  · rw [visit_FunctionAST_resolved env expr st F hres]
    simp [finishFunction, hnull]

/-- Witness for C2: `def bar(a) y`, whose body reads an undeclared variable. -/
theorem visit_FunctionAST_null_body_erases_witness :
    (resolveFunction refBase exampleBar exampleEngine).result_func = some "bar" ∧
    (bodyEnd refBase exampleBar "bar"
        (resolveFunction refBase exampleBar exampleEngine)).result_val = none ∧
    (visit_FunctionAST refBase exampleBar exampleEngine).TheModule.getFunction "bar" = none ∧
    (visit_FunctionAST refBase exampleBar exampleEngine).result_func = none :=
  ⟨rfl, rfl,
   (visit_FunctionAST_null_body_erases refBase exampleBar exampleEngine "bar" rfl rfl).1,
   (visit_FunctionAST_null_body_erases refBase exampleBar exampleEngine "bar" rfl rfl).2.2.2.2⟩

/-- C3: after `visit(FunctionAST*)` the function-result slot is non-null exactly
when the function object was resolved for the name of the prototype and the
body lowered to a non-null value.  Then the slot holds that function object,
the module is the one the lowering of the body left with one return of the
lowered value inserted, and, the insertion point being in a block of that
function when the lowering of the body ends, that return is the last
instruction of the block. -/
theorem visit_FunctionAST_result (env : Collaborators) (expr : FunctionAST) (st : Engine) :
    ((visit_FunctionAST env expr st).result_func ≠ none ↔
      ∃ F v, (resolveFunction env expr st).result_func = some F ∧
        (bodyEnd env expr F (resolveFunction env expr st)).result_val = some v) ∧
    (∀ F v, (resolveFunction env expr st).result_func = some F →
      (bodyEnd env expr F (resolveFunction env expr st)).result_val = some v →
      (visit_FunctionAST env expr st).result_func = some F ∧
      (visit_FunctionAST env expr st).TheModule
        = (CreateRet v (bodyEnd env expr F (resolveFunction env expr st))).TheModule ∧
      (∀ idx G,
        (bodyEnd env expr F (resolveFunction env expr st)).Builder.InsertBlock = some ⟨F, idx⟩ →
        (bodyEnd env expr F (resolveFunction env expr st)).TheModule.getFunction F = some G →
        idx < G.blocks.length →
        (visit_FunctionAST env expr st).TheModule.instsOf ⟨F, idx⟩
          = (bodyEnd env expr F (resolveFunction env expr st)).TheModule.instsOf ⟨F, idx⟩ ++
              [⟨Opcode.ret v,
                (bodyEnd env expr F
                  (resolveFunction env expr st)).Builder.CurrentDebugLocation⟩])) := by
  have hsome : ∀ F v, (resolveFunction env expr st).result_func = some F →
      (bodyEnd env expr F (resolveFunction env expr st)).result_val = some v →
      (visit_FunctionAST env expr st).result_func = some F ∧
      (visit_FunctionAST env expr st).TheModule
        = (CreateRet v (bodyEnd env expr F (resolveFunction env expr st))).TheModule := by
    intro F v hF hv
    rw [visit_FunctionAST_resolved env expr st F hF]
    simp [finishFunction, hv]
  refine ⟨⟨?_, ?_⟩, ?_⟩
  · intro hne
    cases hF : (resolveFunction env expr st).result_func with
    | none =>
      rw [visit_FunctionAST_unresolved env expr st hF] at hne
      exact absurd rfl hne
    | some F =>
      cases hv : (bodyEnd env expr F (resolveFunction env expr st)).result_val with
      | none =>
        rw [visit_FunctionAST_resolved env expr st F hF] at hne
        simp [finishFunction, hv] at hne
      | some v => exact ⟨F, v, rfl, hv⟩
  · rintro ⟨F, v, hF, hv⟩
    rw [(hsome F v hF hv).1]
    exact Option.some_ne_none F
  · intro F v hF hv
    refine ⟨(hsome F v hF hv).1, (hsome F v hF hv).2, ?_⟩
    intro idx G hbb hG hidx
    rw [(hsome F v hF hv).2]
    simp only [CreateRet, Engine.Insert, hbb]
    exact instsOf_appendInst_self _ ⟨F, idx⟩ _ G hG hidx

/-- Witness for C3: `def foo(a b a) a` lowered from a fresh state; the return of
the value loaded from `a` ends the entry block. -/
theorem visit_FunctionAST_result_witness :
    (resolveFunction refBase exampleFoo exampleEngine).result_func = some "foo" ∧
    (bodyEnd refBase exampleFoo "foo"
        (resolveFunction refBase exampleFoo exampleEngine)).result_val
      = some (Value.lowered "a") ∧
    (visit_FunctionAST refBase exampleFoo exampleEngine).result_func = some "foo" ∧
    ((visit_FunctionAST refBase exampleFoo exampleEngine).TheModule.instsOf ⟨"foo", 0⟩).getLast?
      = some ⟨Opcode.ret (Value.lowered "a"),
          some ⟨4, 7, DIScope.subprogram
            ⟨0, ⟨"fib.arxks", "."⟩, "foo", "", ⟨"fib.arxks", "."⟩, 3,
              [⟨"double", 64, 4⟩, ⟨"double", 64, 4⟩, ⟨"double", 64, 4⟩, ⟨"double", 64, 4⟩], 3⟩⟩⟩ :=
  ⟨rfl, rfl,
   ((visit_FunctionAST_result refBase exampleFoo exampleEngine).2 "foo" (Value.lowered "a")
      rfl rfl).1,
   by rw [((visit_FunctionAST_result refBase exampleFoo exampleEngine).2 "foo"
        (Value.lowered "a") rfl rfl).2.2 0 _ rfl rfl (by decide)]
      rfl⟩

/-- C4 at its failing input: `def one() 1` lowered twice in one session.  The
first lowering yields a function the verifier accepts.  The second resolves the
same function object, attaches a new subprogram and a second block; the
verifier reports the function broken (the return of the first block points at
the first subprogram), and the function is exposed in the result slot all the
same. -/
theorem visit_FunctionAST_exposes_rejected_function :
    (visit_FunctionAST refBase exampleOne exampleEngine).result_func = some "one" ∧
    ((visit_FunctionAST refBase exampleOne exampleEngine).TheModule.getFunction "one").map
        refBase.verifyFunction = some false ∧
    (visit_FunctionAST refBase exampleOne
        (visit_FunctionAST refBase exampleOne exampleEngine)).result_func = some "one" ∧
    ((visit_FunctionAST refBase exampleOne
        (visit_FunctionAST refBase exampleOne exampleEngine)).TheModule.getFunction "one").map
        refBase.verifyFunction = some true := by
  refine ⟨rfl, ?_, rfl, ?_⟩ <;> decide

/-- C5, as amended: for a resolved function object `F` (present in the module,
with argument names `G.args`) and whatever the Symbol Table held before, when
the lowering of the body starts the Symbol Table binds exactly the argument
names of the function object and nothing else.  Those names are pairwise
distinct (unnamed arguments apart), and each is bound to the stack slot
allocated in this function for the argument that carries it, whose `alloca` is
in the entry block of `F` and into which the incoming argument has been
stored by a store, without location, in the new block; a name several
arguments carry (only the empty one can be) is bound to the slot of the last
of them. -/
theorem bodyStart_symbol_table (env : Collaborators) (expr : FunctionAST) (st : Engine)
    (F : String) (G : Function)
    (hres : (resolveFunction env expr st).result_func = some F)
    (hF : (resolveFunction env expr st).TheModule.getFunction F = some G) :
    visit_FunctionAST env expr st
      = finishFunction env F
          (accept env expr.Body (bodyStart expr F (resolveFunction env expr st))) ∧
    (∀ n, ((bodyStart expr F (resolveFunction env expr st)).NamedValues.find n).isSome
      ↔ n ∈ G.args) ∧
    (∀ (k : Nat) (n : String), G.args[k]? = some n → n ≠ "" →
      (∀ j : Nat, j ≠ k → G.args[j]? ≠ some n) ∧
      (bodyStart expr F (resolveFunction env expr st)).NamedValues.find n
        = some (Value.alloca ((resolveFunction env expr st).nextSlot + k)) ∧
      (⟨Opcode.alloca (Value.alloca ((resolveFunction env expr st).nextSlot + k)) n, none⟩ :
          Instruction)
        ∈ (bodyStart expr F (resolveFunction env expr st)).TheModule.instsOf ⟨F, 0⟩ ∧
      (⟨Opcode.store (Value.argument F k)
          (Value.alloca ((resolveFunction env expr st).nextSlot + k)), none⟩ : Instruction)
        ∈ (bodyStart expr F (resolveFunction env expr st)).TheModule.instsOf
            ⟨F, G.blocks.length⟩) ∧
    (∀ (k : Nat) (n : String), G.args[k]? = some n → (∀ j : Nat, k < j → G.args[j]? ≠ some n) →
      (bodyStart expr F (resolveFunction env expr st)).NamedValues.find n
        = some (Value.alloca ((resolveFunction env expr st).nextSlot + k)) ∧
      (⟨Opcode.alloca (Value.alloca ((resolveFunction env expr st).nextSlot + k)) n, none⟩ :
          Instruction)
        ∈ (bodyStart expr F (resolveFunction env expr st)).TheModule.instsOf ⟨F, 0⟩ ∧
      (⟨Opcode.store (Value.argument F k)
          (Value.alloca ((resolveFunction env expr st).nextSlot + k)), none⟩ : Instruction)
        ∈ (bodyStart expr F (resolveFunction env expr st)).TheModule.instsOf
            ⟨F, G.blocks.length⟩) := by
  obtain ⟨hNV, hArg, -⟩ := prologue_spec expr.Proto F (resolveFunction env expr st) G hF
  have hnv : (bodyStart expr F (resolveFunction env expr st)).NamedValues
      = (prologue expr.Proto F (resolveFunction env expr st)).NamedValues :=
    (emitLocation_frame _ _).2.2.1
  have hmod : (bodyStart expr F (resolveFunction env expr st)).TheModule
      = (prologue expr.Proto F (resolveFunction env expr st)).TheModule :=
    (emitLocation_frame _ _).2.2.2.1
  have hlast : ∀ (k : Nat) (n : String), G.args[k]? = some n →
      (∀ j : Nat, k < j → G.args[j]? ≠ some n) →
      (bodyStart expr F (resolveFunction env expr st)).NamedValues.find n
        = some (Value.alloca ((resolveFunction env expr st).nextSlot + k)) ∧
      (⟨Opcode.alloca (Value.alloca ((resolveFunction env expr st).nextSlot + k)) n, none⟩ :
          Instruction)
        ∈ (bodyStart expr F (resolveFunction env expr st)).TheModule.instsOf ⟨F, 0⟩ ∧
      (⟨Opcode.store (Value.argument F k)
          (Value.alloca ((resolveFunction env expr st).nextSlot + k)), none⟩ : Instruction)
        ∈ (bodyStart expr F (resolveFunction env expr st)).TheModule.instsOf
            ⟨F, G.blocks.length⟩ := by
    intro k n hk hl
    rw [hnv, hmod]
    exact hArg k n hk hl
  refine ⟨visit_FunctionAST_resolved env expr st F hres, ?_, ?_, hlast⟩
  · intro n
    constructor
    · intro hsome
      by_contra hn
      rw [hnv, hNV n hn] at hsome
      exact absurd hsome (by simp)
    · intro hn
      obtain ⟨k, hk, hl⟩ := exists_last_occurrence n G.args hn
      rw [(hlast k n hk hl).1]
      rfl
  · intro k n hk hne
    have hafter := distinctNames_unique_position G.args G.args_distinct k n hk hne
    refine ⟨?_, hlast k n hk hafter⟩
    intro j hj
    cases Nat.lt_or_gt_of_ne hj with
    | inl hlt =>
      intro e
      exact distinctNames_unique_position G.args G.args_distinct j n e hne k hlt hk
    | inr hgt => exact hafter j hgt

/-- Witness for C5: `def foo(a b a) a` lowered from a state whose Symbol Table
holds a stale binding.  The function object has the arguments `a`, `b`, `a1`;
at the start of the body `a1` is bound to the slot of the third argument and
the stale name is gone. -/
theorem bodyStart_symbol_table_witness :
    (resolveFunction refBase exampleFoo
        { exampleEngine with NamedValues := [("stale", Value.alloca 7)] }).result_func
      = some "foo" ∧
    (resolveFunction refBase exampleFoo
        { exampleEngine with NamedValues := [("stale", Value.alloca 7)] }).TheModule.getFunction
        "foo" = some { args := ["a", "b", "a1"], args_distinct := rfl } ∧
    (bodyStart exampleFoo "foo"
        (resolveFunction refBase exampleFoo
          { exampleEngine with NamedValues := [("stale", Value.alloca 7)] })).NamedValues.find "a1"
      = some (Value.alloca 2) ∧
    ¬ ((bodyStart exampleFoo "foo"
        (resolveFunction refBase exampleFoo
          { exampleEngine with
            NamedValues := [("stale", Value.alloca 7)] })).NamedValues.find "stale").isSome :=
  ⟨rfl, rfl,
   ((bodyStart_symbol_table refBase exampleFoo
      { exampleEngine with NamedValues := [("stale", Value.alloca 7)] } "foo"
      { args := ["a", "b", "a1"], args_distinct := rfl } rfl rfl).2.2.1 2 "a1" rfl
      (by decide)).2.1,
   fun h => absurd
    (((bodyStart_symbol_table refBase exampleFoo
      { exampleEngine with NamedValues := [("stale", Value.alloca 7)] } "foo"
      { args := ["a", "b", "a1"], args_distinct := rfl } rfl rfl).2.1 "stale").mp h)
    (by decide)⟩

/-- C5 as stated fails.  For `def foo(a b a) a` the function object has the
arguments `a`, `b`, `a1`: at the start of the body `a` is bound to the slot of
the first parameter, not of the last parameter of that name, and the table
holds `a1`, which is no parameter name of the node.  For `def foo(x) x`
lowered after `def foo(a) a` the function object of the first definition is
resolved: the table holds `a` and not the parameter name `x`. -/
theorem bodyStart_symbol_table_not_prototype_names :
    (resolveFunction refBase exampleFoo exampleEngine).result_func = some "foo" ∧
    argsOf "foo" (resolveFunction refBase exampleFoo exampleEngine) = ["a", "b", "a1"] ∧
    exampleFoo.Proto.Args = ["a", "b", "a"] ∧
    (bodyStart exampleFoo "foo"
        (resolveFunction refBase exampleFoo exampleEngine)).NamedValues
      = [("a", Value.alloca 0), ("b", Value.alloca 1), ("a1", Value.alloca 2)] ∧
    (bodyStart exampleFoo "foo"
        (resolveFunction refBase exampleFoo exampleEngine)).NamedValues.find "a"
      ≠ some (Value.alloca 2) ∧
    ((bodyStart exampleFoo "foo"
        (resolveFunction refBase exampleFoo exampleEngine)).NamedValues.find "a1").isSome ∧
    "a1" ∉ exampleFoo.Proto.Args ∧
    (resolveFunction refBase exampleFooX
        (visit_FunctionAST refBase exampleFooA exampleEngine)).result_func = some "foo" ∧
    (bodyStart exampleFooX "foo"
        (resolveFunction refBase exampleFooX
          (visit_FunctionAST refBase exampleFooA exampleEngine))).NamedValues
      = [("a", Value.alloca 1)] ∧
    "x" ∈ exampleFooX.Proto.Args ∧
    (bodyStart exampleFooX "foo"
        (resolveFunction refBase exampleFooX
          (visit_FunctionAST refBase exampleFooA exampleEngine))).NamedValues.find "x" = none := by
  refine ⟨rfl, rfl, rfl, rfl, ?_, rfl, ?_, rfl, rfl, ?_, rfl⟩ <;> decide

/-- C6, as amended: for a resolved function object `F` and whatever debug
location was current when the visit started, the stores in the block the
prologue created are exactly the stores of the incoming arguments into their
slots, in order, each carrying the null location (the location current when
it was emitted); the current location is still null when the last parameter
has been stored, and it is then set, before the body is lowered and without
emitting anything, to the non-null location `DILocation::get` makes of the
line and column of the body node and the subprogram of the function: (line,
column, subprogram) when the column is below 65536, (line, 0, subprogram)
otherwise. -/
theorem prologue_stores_carry_no_location (env : Collaborators) (expr : FunctionAST)
    (st : Engine) (F : String) (G : Function)
    (hres : (resolveFunction env expr st).result_func = some F)
    (hF : (resolveFunction env expr st).TheModule.getFunction F = some G) :
    ((prologue expr.Proto F (resolveFunction env expr st)).TheModule.instsOf
        ⟨F, G.blocks.length⟩).filter Instruction.isStore
      = (List.range G.args.length).map (fun k =>
          (⟨Opcode.store (Value.argument F k)
            (Value.alloca ((resolveFunction env expr st).nextSlot + k)), none⟩ : Instruction)) ∧
    (prologue expr.Proto F (resolveFunction env expr st)).Builder.CurrentDebugLocation = none ∧
    (prologue expr.Proto F (resolveFunction env expr st)).Builder.InsertBlock
      = some ⟨F, G.blocks.length⟩ ∧
    (bodyStart expr F (resolveFunction env expr st)).Builder.CurrentDebugLocation
      = some (DILocation_get expr.Body.getLine expr.Body.getCol
          (DIScope.subprogram (openFunction expr.Proto F (resolveFunction env expr st)).1.2)) ∧
    (expr.Body.getCol < 65536 →
      (bodyStart expr F (resolveFunction env expr st)).Builder.CurrentDebugLocation
        = some ⟨expr.Body.getLine, expr.Body.getCol,
            DIScope.subprogram (openFunction expr.Proto F (resolveFunction env expr st)).1.2⟩) ∧
    (65536 ≤ expr.Body.getCol →
      (bodyStart expr F (resolveFunction env expr st)).Builder.CurrentDebugLocation
        = some ⟨expr.Body.getLine, 0,
            DIScope.subprogram (openFunction expr.Proto F (resolveFunction env expr st)).1.2⟩) ∧
    (bodyStart expr F (resolveFunction env expr st)).Builder.CurrentDebugLocation ≠ none ∧
    (bodyStart expr F (resolveFunction env expr st)).TheModule
      = (prologue expr.Proto F (resolveFunction env expr st)).TheModule ∧
    visit_FunctionAST env expr st
      = finishFunction env F
          (accept env expr.Body (bodyStart expr F (resolveFunction env expr st))) := by
  obtain ⟨-, -, hFilter⟩ := prologue_spec expr.Proto F (resolveFunction env expr st) G hF
  obtain ⟨pStack, -, pLoc, pIB, -, -⟩ := prologue_frame expr.Proto F (resolveFunction env expr st)
  have hlast : (prologue expr.Proto F (resolveFunction env expr st)).LexicalBlocks.getLast?
      = some (DIScope.subprogram
          (openFunction expr.Proto F (resolveFunction env expr st)).1.2) := by
    rw [pStack, List.getLast?_append]
    rfl
  have hloc : (bodyStart expr F (resolveFunction env expr st)).Builder.CurrentDebugLocation
      = some (DILocation_get expr.Body.getLine expr.Body.getCol
          (DIScope.subprogram (openFunction expr.Proto F (resolveFunction env expr st)).1.2)) := by
    simp [bodyStart, emitLocation, hlast, Engine.SetCurrentDebugLocation]
  refine ⟨hFilter, pLoc, ?_, hloc, ?_, ?_, ?_, (emitLocation_frame _ _).2.2.2.1,
    visit_FunctionAST_resolved env expr st F hres⟩
  · rw [pIB]
    simp [BasicBlock_Create, hF]
  · intro h
    rw [hloc]
    simp [DILocation_get, adjustColumn, h]
  · intro h
    rw [hloc]
    simp [DILocation_get, adjustColumn, Nat.not_lt.mpr h]
  · rw [hloc]
    exact Option.some_ne_none _

/-- Witness for C6: `def foo(a b a) a` lowered from a state in which a non-null
location is current. -/
theorem prologue_stores_carry_no_location_witness :
    (resolveFunction refBase exampleFoo
        (exampleInside.SetCurrentDebugLocation
          (some ⟨9, 9, DIScope.compileUnit exampleCU⟩))).result_func = some "foo" ∧
    (resolveFunction refBase exampleFoo
        (exampleInside.SetCurrentDebugLocation
          (some ⟨9, 9, DIScope.compileUnit exampleCU⟩))).TheModule.getFunction "foo"
      = some { args := ["a", "b", "a1"], args_distinct := rfl } ∧
    ((prologue exampleFoo.Proto "foo"
        (resolveFunction refBase exampleFoo
          (exampleInside.SetCurrentDebugLocation
            (some ⟨9, 9, DIScope.compileUnit exampleCU⟩)))).TheModule.instsOf
        ⟨"foo", 0⟩).filter Instruction.isStore
      = [⟨Opcode.store (Value.argument "foo" 0) (Value.alloca 0), none⟩,
         ⟨Opcode.store (Value.argument "foo" 1) (Value.alloca 1), none⟩,
         ⟨Opcode.store (Value.argument "foo" 2) (Value.alloca 2), none⟩] :=
  ⟨rfl, rfl,
   (prologue_stores_carry_no_location refBase exampleFoo
      (exampleInside.SetCurrentDebugLocation (some ⟨9, 9, DIScope.compileUnit exampleCU⟩))
      "foo" { args := ["a", "b", "a1"], args_distinct := rfl } rfl rfl).1⟩

/-- C6 as stated fails: for `def far() 1`, whose body node is at column 65536,
the location current when the lowering of the body starts has column 0, not
the column of the body node. -/
theorem bodyStart_location_drops_wide_column :
    (resolveFunction refBase exampleFar exampleEngine).result_func = some "far" ∧
    exampleFar.Body.getLine = 2 ∧
    exampleFar.Body.getCol = 65536 ∧
    (bodyStart exampleFar "far"
        (resolveFunction refBase exampleFar exampleEngine)).Builder.CurrentDebugLocation
      = some ⟨2, 0, DIScope.subprogram
          (openFunction exampleFar.Proto "far"
            (resolveFunction refBase exampleFar exampleEngine)).1.2⟩ ∧
    (bodyStart exampleFar "far"
        (resolveFunction refBase exampleFar exampleEngine)).Builder.CurrentDebugLocation
      ≠ some ⟨exampleFar.Body.getLine, exampleFar.Body.getCol, DIScope.subprogram
          (openFunction exampleFar.Proto "far"
            (resolveFunction refBase exampleFar exampleEngine)).1.2⟩ := by
  refine ⟨rfl, rfl, rfl, rfl, ?_⟩
  decide

/-- C9: after `visit(FunctionAST*)`, on every path, the Prototype Registry is
the incoming registry with the prototype of the node assigned to its name: the
name maps to that prototype, every entry under another name is unchanged, and
every name registered before is still registered (provided name resolution and
the lowering of the body, which belong to the base class, do not write to the
registry). -/
theorem visit_FunctionAST_registry (env : Collaborators) (expr : FunctionAST) (st : Engine)
    (hget : ∀ s, (env.getFunction expr.Proto.Name s).FunctionProtos = s.FunctionProtos)
    (hbody : ∀ s, (accept env expr.Body s).FunctionProtos = s.FunctionProtos) :
    (visit_FunctionAST env expr st).FunctionProtos
      = st.FunctionProtos.assign expr.Proto.Name expr.Proto ∧
    (visit_FunctionAST env expr st).FunctionProtos.find expr.Proto.Name = some expr.Proto ∧
    (∀ n, n ≠ expr.Proto.Name →
      (visit_FunctionAST env expr st).FunctionProtos.find n = st.FunctionProtos.find n) ∧
    (∀ n, (st.FunctionProtos.find n).isSome →
      ((visit_FunctionAST env expr st).FunctionProtos.find n).isSome) := by
  have hres : (resolveFunction env expr st).FunctionProtos
      = st.FunctionProtos.assign expr.Proto.Name expr.Proto := by
    simp [resolveFunction, hget]
  have hall : (visit_FunctionAST env expr st).FunctionProtos
      = st.FunctionProtos.assign expr.Proto.Name expr.Proto := by
    cases h : (resolveFunction env expr st).result_func with
    | none => rw [visit_FunctionAST_unresolved env expr st h]; exact hres
    | some F =>
      rw [visit_FunctionAST_resolved env expr st F h]
      simp only [bodyEnd, bodyStart]
      rw [(finishFunction_frame _ _ _).2.1, hbody, (emitLocation_frame _ _).2.1,
        (prologue_frame _ _ _).2.1, hres]
  refine ⟨hall, ?_, ?_, ?_⟩
  · rw [hall, StrMap.find_assign_self]
  · intro n hn
    rw [hall, StrMap.find_assign_ne _ _ _ _ hn]
  · intro n hn
    rw [hall]
    by_cases h : n = expr.Proto.Name
    · subst h
      simp [StrMap.find_assign_self]
    · rw [StrMap.find_assign_ne _ _ _ _ h]
      exact hn

/-- Witness for C9: `def bar(a) y`, whose lowering fails, lowered in a state
that already has the prototype of `foo` registered. -/
theorem visit_FunctionAST_registry_witness :
    (∀ s, (refBase.getFunction exampleBar.Proto.Name s).FunctionProtos = s.FunctionProtos) ∧
    (∀ s, (accept refBase exampleBar.Body s).FunctionProtos = s.FunctionProtos) ∧
    (visit_FunctionAST refBase exampleBar
        { exampleEngine with FunctionProtos := [("foo", exampleFoo.Proto)] }).FunctionProtos
      = [("foo", exampleFoo.Proto), ("bar", exampleBar.Proto)] :=
  ⟨fun s => (refGetFunction_frame _ s).2.1, fun s => (accept_refBase_frame _ s).2.1,
   (visit_FunctionAST_registry refBase exampleBar
      { exampleEngine with FunctionProtos := [("foo", exampleFoo.Proto)] }
      (fun s => (refGetFunction_frame _ s).2.1) (fun s => (accept_refBase_frame _ s).2.1)).1⟩

/-- C10: in a session run by `compile_llvm_ir` (one in which the JIT is created,
so that the process goes on, and whose main loop creates no compile unit and
does not finalize), the debug-info builder that is finalized is the one in
use since before the main loop; exactly one compile-unit record was created on
it (file `fib.arxks`, producer `Arx Compiler`, not optimized); it is not
finalized before or during the main loop, in which all functions are lowered,
and it is finalized once when the session ends.  (The builder made by
`Initialize` also received one compile-unit record, for `fib.ks`; that builder
is replaced before the main loop and is never finalized.) -/
theorem compile_llvm_ir_one_compile_unit (env : Collaborators) (ast : TreeAST)
    (DataLayout : String) (hJIT : env.ArxJIT_Create = some DataLayout)
    (hMain : ∀ s, (env.MainLoop ast s).DBuilder.compileUnits = s.DBuilder.compileUnits ∧
      (env.MainLoop ast s).DBuilder.finalized = s.DBuilder.finalized) :
    ∃ early start final,
      sessionPrelude env = some early ∧
      early.DBuilder.compileUnits
        = [⟨DW_LANG_C, ⟨"fib.ks", "."⟩, "Arx Compiler", false, "", 0⟩] ∧
      early.DBuilder.finalized = 0 ∧
      openSession env = some start ∧
      compile_llvm_ir env ast = some final ∧
      final = closeSession (env.MainLoop ast start) ∧
      start.DBuilder.compileUnits
        = [⟨DW_LANG_C, ⟨"fib.arxks", "."⟩, "Arx Compiler", false, "", 0⟩] ∧
      start.DBuilder.finalized = 0 ∧
      (env.MainLoop ast start).DBuilder.finalized = 0 ∧
      final.DBuilder.compileUnits
        = [⟨DW_LANG_C, ⟨"fib.arxks", "."⟩, "Arx Compiler", false, "", 0⟩] ∧
      final.DBuilder.finalized = 1 := by
  have hpre : ∃ early, sessionPrelude env = some early ∧
      early.DBuilder.compileUnits
        = [⟨DW_LANG_C, ⟨"fib.ks", "."⟩, "Arx Compiler", false, "", 0⟩] ∧
      early.DBuilder.finalized = 0 := by
    simp only [sessionPrelude, Initialize, hJIT]
    cases env.isOSDarwin <;> exact ⟨_, rfl, rfl, rfl⟩
  obtain ⟨early, hearly, eCU, efin⟩ := hpre
  have hopen : ∃ start, openSession env = some start ∧
      start.DBuilder.compileUnits
        = [⟨DW_LANG_C, ⟨"fib.arxks", "."⟩, "Arx Compiler", false, "", 0⟩] ∧
      start.DBuilder.finalized = 0 := by
    simp only [openSession, hearly]
    exact ⟨_, rfl, rfl, rfl⟩
  obtain ⟨start, hstart, hCU, hfin⟩ := hopen
  obtain ⟨m1, m2⟩ := hMain start
  refine ⟨early, start, closeSession (env.MainLoop ast start), hearly, eCU, efin, hstart, ?_, rfl,
    hCU, hfin, ?_, ?_, ?_⟩
  · simp [compile_llvm_ir, hstart]
  · rw [m2, hfin]
  · simp [closeSession, printModule, finalize, m1, hCU]
  · simp [closeSession, printModule, finalize, m2, hfin]

/-- Witness for C10: the session that lowers `foo` and `bar`. -/
theorem compile_llvm_ir_one_compile_unit_witness :
    refEnv.ArxJIT_Create = some "e-m:e-i64:64-f80:128-n8:16:32:64-S128" ∧
    (compile_llvm_ir refEnv exampleTree).map (fun final => final.DBuilder.compileUnits)
      = some [⟨DW_LANG_C, ⟨"fib.arxks", "."⟩, "Arx Compiler", false, "", 0⟩] ∧
    (compile_llvm_ir refEnv exampleTree).map (fun final => final.DBuilder.finalized) = some 1 := by
  obtain ⟨early, start, final, -, -, -, -, hrun, -, -, -, -, hCU, hfin⟩ :=
    compile_llvm_ir_one_compile_unit refEnv exampleTree _ rfl
      (fun s => refMainLoop_DBuilder exampleTree s)
  exact ⟨rfl, by rw [hrun]; simp [hCU], by rw [hrun]; simp [hfin]⟩

end Arx
